import Mathlib

/-!
Shallow embedding of the feishu-base-parser scripts
(`generate_自动化地图.py`, `generate_全量字段表.py`, `generate_关联关系图.py`)
and proofs about the claims of the natural-language specification.

Conventions of the embedding:
* Python dictionaries are association lists; assignment `d[k] = v` is
  `alistInsert` (replace in place, else append), which preserves Python's
  insertion-order iteration semantics; `d.get(k)` is `alistLookup`
  (first matching key).
* Python values appearing in workflow payloads are modelled by the
  inductive `PyVal` (no floats: none of the analysed code paths require
  them).  `str(x)` is `pyStr`; `repr` of strings is modelled without
  escape sequences (the analysed behaviour never depends on it).
* Python code paths that raise on ill-typed data (e.g. iterating a
  non-list) are modelled as returning the neutral value for that spot
  (empty iteration, default lookup); no claim exercises such an input.
* Python string truthiness is emptiness; dict/list truthiness is
  non-emptiness.
-/

/-- Model of a Python runtime value as found in the decoded payloads. -/
inductive PyVal where
  | none
  | bool (b : Bool)
  | int (n : Int)
  | str (s : String)
  | list (xs : List PyVal)
  | dict (entries : List (String × PyVal))

/-- Python truthiness for a `PyVal`. -/
def pyTruthy : PyVal → Bool
  | .none => false
  | .bool b => b
  | .int n => n != 0
  | .str s => s != ""
  | .list xs => !xs.isEmpty
  | .dict es => !es.isEmpty

mutual

/-- Python `==` on embedded values (`True == 1` holds, as in Python). -/
def pyEqb : PyVal → PyVal → Bool
  | .none, .none => true
  | .bool a, .bool b => a == b
  | .bool a, .int b => (if a then (1 : Int) else 0) == b
  | .int a, .bool b => a == (if b then (1 : Int) else 0)
  | .int a, .int b => a == b
  | .str a, .str b => a == b
  | .list xs, .list ys => pyEqbList xs ys
  | .dict es, .dict fs => pyEqbEntries es fs
  | _, _ => false

/-- Elementwise Python `==` on lists of values. -/
def pyEqbList : List PyVal → List PyVal → Bool
  | [], [] => true
  | x :: xs, y :: ys => pyEqb x y && pyEqbList xs ys
  | _, _ => false

/-- Entrywise Python `==` on dict entry lists. -/
def pyEqbEntries : List (String × PyVal) → List (String × PyVal) → Bool
  | [], [] => true
  | (k, v) :: xs, (k', v') :: ys => k == k' && pyEqb v v' && pyEqbEntries xs ys
  | _, _ => false

end

/-- Python `x == "lit"` for a value and a string literal. -/
def pyEqStr (v : PyVal) (s : String) : Bool :=
  match v with
  | .str t => t == s
  | _ => false

/-- Association-list lookup: first entry with the given key (Python `d.get(k)`). -/
def alistLookup {κ α : Type} [DecidableEq κ] (k : κ) : List (κ × α) → Option α
  | [] => Option.none
  | (k', v) :: rest => if k' = k then some v else alistLookup k rest

/-- Association-list insertion modelling Python `d[k] = v`: replace the value
in place when the key is present, otherwise append at the end. -/
def alistInsert {κ α : Type} [DecidableEq κ] (k : κ) (v : α) : List (κ × α) → List (κ × α)
  | [] => [(k, v)]
  | (k', v') :: rest => if k' = k then (k, v) :: rest else (k', v') :: alistInsert k v rest

/-- Python `', '.join(parts)` and friends. -/
def pyJoin (sep : String) (parts : List String) : String :=
  match parts with
  | [] => ""
  | p :: rest => rest.foldl (fun acc q => acc ++ (sep ++ q)) p

/-- Python `repr` for embedded values (string escaping not modelled). -/
def pyRepr : PyVal → String
  | .none => "None"
  | .bool b => if b then "True" else "False"
  | .int n => toString n
  | .str s => "'" ++ s ++ "'"
  | .list xs => "[" ++ pyJoin ", " (xs.attach.map fun x => pyRepr x.1) ++ "]"
  | .dict es =>
      if es.isEmpty then "{}" else
      "\x7b" ++ pyJoin ", "
        (es.attach.map fun e => "'" ++ e.1.1 ++ "': " ++ pyRepr e.1.2) ++ "\x7d"
decreasing_by
  · have := List.sizeOf_lt_of_mem x.2
    simp [PyVal.list.sizeOf_spec]
    omega
  · have h1 := List.sizeOf_lt_of_mem e.2
    have h2 : sizeOf e.1.2 < sizeOf e.1 := by
      obtain ⟨⟨k, v⟩, hv⟩ := e
      simp
    simp [PyVal.dict.sizeOf_spec]
    omega

/-- Python `str` for embedded values. -/
def pyStr : PyVal → String
  | .str s => s
  | v => pyRepr v

/-- Python `d.get(k, default)` on a `PyVal` that may or may not be a dict;
a non-dict receiver yields the default (the source would raise there). -/
def dgetD (v : PyVal) (k : String) (dflt : PyVal) : PyVal :=
  match v with
  | .dict es => (alistLookup k es).getD dflt
  | _ => dflt

/-- Python `d.get(k)` (default `None`). -/
def dget (v : PyVal) (k : String) : PyVal := dgetD v k .none

/-- Key-membership test `k in d` for a dict value. -/
def dhasKey (v : PyVal) (k : String) : Bool :=
  match v with
  | .dict es => (alistLookup k es).isSome
  | _ => false

/-- Iterating a Python value as a list; non-lists iterate as empty
(the source raises on those; no claim exercises them). -/
def pyItems : PyVal → List PyVal
  | .list xs => xs
  | _ => []

/-- Python `s.strip(chars)` on a character list: drop the leading and
trailing characters belonging to `cs`. -/
def stripCharsL (cs : List Char) (l : List Char) : List Char :=
  ((l.dropWhile (· ∈ cs)).reverse.dropWhile (· ∈ cs)).reverse

/-- Python `s.strip(chars)` on strings. -/
def stripChars (cs : List Char) (s : String) : String :=
  String.mk (stripCharsL cs s.toList)

/-- Characters matched by Python's `\s` / no-argument `strip()` (ASCII part). -/
def pySpaceChars : List Char := [' ', '\t', '\n', '\r', '\x0b', '\x0c']

/-- Python `s.strip()` (whitespace). -/
def pyStripWs (s : String) : String := stripChars pySpaceChars s

/-- Substring occurrence test: does `lit` occur contiguously in `l`? -/
def occursIn (lit : List Char) : List Char → Bool
  | [] => decide (lit = [])
  | c :: r => lit.isPrefixOf (c :: r) || occursIn lit r

/-- Python `sub in s` on strings. -/
def pyInStr (sub s : String) : Bool := occursIn sub.toList s.toList

/-- Python `s.startswith(p)`. -/
def pyStartsWith (s p : String) : Bool := p.toList.isPrefixOf s.toList

/-- Python ASCII lower-casing of a string (`str.lower`, ASCII part). -/
def pyLower (s : String) : String := String.mk (s.toList.map Char.toLower)

theorem pyVal_sizeOf_pos (v : PyVal) : 0 < sizeOf v := by
  cases v <;> simp

theorem alistLookup_mem {κ α : Type} [DecidableEq κ] {k : κ} {l : List (κ × α)} {v : α}
    (h : alistLookup k l = some v) : (k, v) ∈ l := by
  induction l with
  | nil => simp [alistLookup] at h
  | cons p rest ih =>
    obtain ⟨k', v'⟩ := p
    by_cases hk : k' = k
    · subst hk
      simp [alistLookup] at h
      subst h; exact List.mem_cons_self _ _
    · simp [alistLookup, hk] at h
      exact List.mem_cons_of_mem _ (ih h)

namespace Auto

/-- Operator translation table (`OPERATORS` in generate_自动化地图.py). -/
def OPERATORS : List (String × String) :=
  [("is", "等于"), ("is_not", "不等于"), ("isNot", "不等于"),
   ("contains", "包含"), ("does_not_contain", "不包含"), ("doesNotContain", "不包含"),
   ("is_empty", "为空"), ("isEmpty", "为空"), ("is_not_empty", "不为空"), ("isNotEmpty", "不为空"),
   ("greater_than", "大于"), ("isGreater", "大于"), ("less_than", "小于"), ("isLess", "小于"),
   ("greater_than_or_equal", "大于等于"), ("isGreaterEqual", "大于等于"),
   ("less_than_or_equal", "小于等于"), ("isLessEqual", "小于等于"),
   ("is_before", "早于"), ("isBefore", "早于"), ("is_after", "晚于"), ("isAfter", "晚于"),
   ("is_on_or_before", "不晚于"), ("isOnOrBefore", "不晚于"),
   ("is_on_or_after", "不早于"), ("isOnOrAfter", "不早于"),
   ("isAnyOf", "是以下任一"), ("isNoneOf", "不是以下任一")]

/-- Action-type translation table (`ACTION_TYPES`). -/
def ACTION_TYPES : List (String × String) :=
  [("AddRecordAction", "新增记录"), ("UpdateRecordAction", "修改记录"),
   ("FindRecordAction", "查找记录"), ("IfElseBranch", "条件判断（If/Else）"),
   ("CustomAction", "自定义动作"), ("SendNotification", "发送通知"),
   ("SendEmail", "发送邮件"), ("DeleteRecordAction", "删除记录"),
   ("UpdateRecord", "修改记录"), ("AddRecord", "新增记录"), ("FindRecord", "查找记录")]

/-- Trigger-type translation table (`TRIGGER_TYPES`). -/
def TRIGGER_TYPES : List (String × String) :=
  [("AddRecordTrigger", "新增记录时触发"), ("SetRecordTrigger", "记录更新时触发"),
   ("TimerTrigger", "定时触发"), ("ButtonTrigger", "按钮点击触发"),
   ("FormSubmitTrigger", "表单提交时触发"),
   ("ChangeRecordTrigger", "新增/修改的记录满足条件时触发"),
   ("ChangeRecordNewSatisfyTrigger", "新增/修改的记录满足条件时触发")]

/-- One entry of a workflow's `Extra.TableMap`: the real table id and the
local-field to real-field alias map. -/
structure WfMapEntry where
  TableID : String
  FieldMap : List (String × String)

/-- Resolve a workflow table-reference id to a table name
(`resolve_table_id`, generate_自动化地图.py lines 174-197), for string ids. -/
def resolve_table_id (ref_id : String) (wf_table_map : List (String × WfMapEntry))
    (global_table_map : List (String × String)) : String :=
  if ref_id = "" then "未知表"
  else
    let r := stripChars ['\\', '"'] (stripChars ['"'] ref_id)
    match (if wf_table_map.isEmpty then Option.none else alistLookup r wf_table_map) with
    | some info =>
        let real_id := stripChars ['"'] info.TableID
        match alistLookup real_id global_table_map with
        | some name => name
        | Option.none => if real_id ≠ "" then real_id else r
    | Option.none =>
        match alistLookup r global_table_map with
        | some name => name
        | Option.none => "[已删除的表:" ++ r ++ "]"

/-- A truthiness filter on an optional looked-up name: Python's
`fname = d.get(k)` followed by `if fname:` treats `""` like a miss. -/
def truthyS : Option String → Option String
  | some s => if s = "" then Option.none else some s
  | Option.none => Option.none

/-- The final relaxed tier of `resolve_field_id`: scan the whole field
registry for the first entry whose field id matches, ignoring the table. -/
def globalFieldScan (fid : String) : List ((String × String) × String) → Option String
  | [] => Option.none
  | ((_, f), name) :: rest => if f = fid then some name else globalFieldScan fid rest

/-- The alias-map tier of `resolve_field_id`: walk the workflow table map in
order; for the first entry whose `FieldMap` contains the reference and whose
translated (table, field) pair has a truthy registered name, return it. -/
def aliasScan (r : String) (fm : List ((String × String) × String)) :
    List (String × WfMapEntry) → Option String
  | [] => Option.none
  | (_, info) :: rest =>
    match alistLookup r info.FieldMap with
    | some real_fid =>
        (match truthyS (alistLookup (stripChars ['"'] info.TableID, real_fid) fm) with
         | some n => some n
         | Option.none => aliasScan r fm rest)
    | Option.none => aliasScan r fm rest

/-- The embedded-token match of `re.search(r'(tbl[^_]+)_(fld.+)', s)` tried at
the head of the character list (greedy `[^_]+` run, then `_fld`, then a
non-empty greedy `.+` run stopping at a newline). -/
def tryTblFldAt (l : List Char) : Option (List Char × List Char) :=
  if ("tbl".toList).isPrefixOf l then
    let afterTbl := l.drop 3
    let run := afterTbl.takeWhile (· ≠ '_')
    if run.isEmpty then Option.none
    else
      match afterTbl.drop run.length with
      | '_' :: tail =>
        if ("fld".toList).isPrefixOf tail then
          let fidRest := (tail.drop 3).takeWhile (· ≠ '\n')
          if fidRest.isEmpty then Option.none
          else some ("tbl".toList ++ run, "fld".toList ++ fidRest)
        else Option.none
      | _ => Option.none
  else Option.none

/-- Leftmost search for the `(tbl[^_]+)_(fld.+)` pattern in a string. -/
def searchTblFld : List Char → Option (List Char × List Char)
  | [] => Option.none
  | c :: rest =>
    match tryTblFldAt (c :: rest) with
    | some p => some p
    | Option.none => searchTblFld rest

/-- The body of `resolve_field_id` after the emptiness check and quote
stripping (`r` is the stripped reference id). -/
def resolve_field_core (r : String) (wf_table_map : List (String × WfMapEntry))
    (field_map : List ((String × String) × String)) : String :=
  let compound : Option String :=
    if pyStartsWith r "ref_ref_tbl" || pyStartsWith r "ref_tbl" then
      match searchTblFld r.toList with
      | some (tid, fid) =>
          let tidS := String.mk tid
          let fidS := String.mk fid
          let t1 : Option String :=
            match alistLookup ("ref_" ++ tidS) wf_table_map with
            | some info =>
                truthyS (alistLookup (stripChars ['"'] info.TableID, fidS) field_map)
            | Option.none => Option.none
          let t2 : Option String := truthyS (alistLookup (tidS, fidS) field_map)
          (t1 <|> t2 <|> globalFieldScan fidS field_map)
      | Option.none => Option.none
    else Option.none
  match compound with
  | some n => n
  | Option.none =>
    match aliasScan r field_map wf_table_map with
    | some n => n
    | Option.none =>
      match globalFieldScan r field_map with
      | some n => n
      | Option.none => "[已删除的字段:" ++ r ++ "]"

/-- Resolve a workflow field-reference id to a field name
(`resolve_field_id`, generate_自动化地图.py lines 200-256), for string ids. -/
def resolve_field_id (ref_fid : String) (wf_table_map : List (String × WfMapEntry))
    (field_map : List ((String × String) × String)) : String :=
  if ref_fid = "" then "未知字段"
  else resolve_field_core (stripChars ['"'] ref_fid) wf_table_map field_map

/-- `resolve_table_id` applied to an arbitrary payload value: the `isinstance`
guards in the source skip the stripping and (string-keyed) lookups for
non-string values. -/
def resolve_table_id_v (v : PyVal) (wf_table_map : List (String × WfMapEntry))
    (global_table_map : List (String × String)) : String :=
  match v with
  | .str s => resolve_table_id s wf_table_map global_table_map
  | v => if pyTruthy v then "[已删除的表:" ++ pyStr v ++ "]" else "未知表"

/-- `resolve_field_id` applied to an arbitrary payload value. -/
def resolve_field_id_v (v : PyVal) (wf_table_map : List (String × WfMapEntry))
    (field_map : List ((String × String) × String)) : String :=
  match v with
  | .str s => resolve_field_id s wf_table_map field_map
  | v => if pyTruthy v then "[已删除的字段:" ++ pyStr v ++ "]" else "未知字段"

end Auto

theorem truthyS_some {o : Option String} {n : String} (h : Auto.truthyS o = some n) :
    o = some n := by
  cases o with
  | none => simp [Auto.truthyS] at h
  | some s =>
    by_cases hs : s = "" <;> simp [Auto.truthyS, hs] at h
    rw [h]

theorem globalFieldScan_mem {fid n : String} {fm : List ((String × String) × String)}
    (h : Auto.globalFieldScan fid fm = some n) : ∃ p ∈ fm, p.2 = n := by
  induction fm with
  | nil => simp [Auto.globalFieldScan] at h
  | cons p rest ih =>
    obtain ⟨⟨t, f⟩, name⟩ := p
    by_cases hf : f = fid
    · simp [Auto.globalFieldScan, hf] at h
      exact ⟨((t, f), name), List.mem_cons_self _ _, by simpa using h⟩
    · simp [Auto.globalFieldScan, hf] at h
      obtain ⟨q, hq, hqn⟩ := ih h
      exact ⟨q, List.mem_cons_of_mem _ hq, hqn⟩

theorem aliasScan_mem {r n : String} {fm : List ((String × String) × String)}
    {wtm : List (String × Auto.WfMapEntry)}
    (h : Auto.aliasScan r fm wtm = some n) : ∃ p ∈ fm, p.2 = n := by
  induction wtm with
  | nil => simp [Auto.aliasScan] at h
  | cons e rest ih =>
    obtain ⟨k, info⟩ := e
    simp only [Auto.aliasScan] at h
    cases hl : alistLookup r info.FieldMap with
    | none =>
      rw [hl] at h
      dsimp only at h
      exact ih h
    | some real_fid =>
      rw [hl] at h
      dsimp only at h
      cases ht : Auto.truthyS (alistLookup (stripChars ['"'] info.TableID, real_fid) fm) with
      | none =>
        rw [ht] at h
        dsimp only at h
        exact ih h
      | some m =>
        rw [ht] at h
        dsimp only at h
        have hmem := alistLookup_mem (truthyS_some ht)
        have hmn : m = n := Option.some.inj h
        exact ⟨_, hmem, hmn⟩

theorem option_orElse_cases {α : Type} {a b : Option α} {c : α}
    (h : (a <|> b) = some c) : a = some c ∨ b = some c := by
  cases a <;> simp_all

/-- Every return path of `resolve_field_core` yields either a value stored in
the field registry or the unresolved-field marker embedding the stripped id. -/
theorem resolve_field_core_cases (r : String) (wtm : List (String × Auto.WfMapEntry))
    (fm : List ((String × String) × String)) :
    (∃ p ∈ fm, Auto.resolve_field_core r wtm fm = p.2) ∨
    Auto.resolve_field_core r wtm fm = "[已删除的字段:" ++ r ++ "]" := by
  unfold Auto.resolve_field_core
  set compound : Option String :=
    (if pyStartsWith r "ref_ref_tbl" || pyStartsWith r "ref_tbl" then
      match Auto.searchTblFld r.toList with
      | some (tid, fid) =>
          let tidS := String.mk tid
          let fidS := String.mk fid
          let t1 : Option String :=
            match alistLookup ("ref_" ++ tidS) wtm with
            | some info =>
                Auto.truthyS (alistLookup (stripChars ['"'] info.TableID, fidS) fm)
            | Option.none => Option.none
          let t2 : Option String := Auto.truthyS (alistLookup (tidS, fidS) fm)
          (t1 <|> t2 <|> Auto.globalFieldScan fidS fm)
      | Option.none => Option.none
    else Option.none) with hcompound
  cases hc : compound with
  | some n =>
    left
    have hval : ∃ p ∈ fm, p.2 = n := by
      rw [hcompound] at hc
      by_cases hpre : (pyStartsWith r "ref_ref_tbl" || pyStartsWith r "ref_tbl") = true
      · rw [if_pos hpre] at hc
        cases hs : Auto.searchTblFld r.toList with
        | none => rw [hs] at hc; simp at hc
        | some p =>
          obtain ⟨tid, fid⟩ := p
          rw [hs] at hc
          simp only at hc
          rcases option_orElse_cases hc with h1 | h12
          · cases hl : alistLookup ("ref_" ++ String.mk tid) wtm with
            | none => rw [hl] at h1; simp at h1
            | some info =>
              rw [hl] at h1
              exact ⟨_, alistLookup_mem (truthyS_some h1), rfl⟩
          · rcases option_orElse_cases h12 with h2 | h3
            · exact ⟨_, alistLookup_mem (truthyS_some h2), rfl⟩
            · exact globalFieldScan_mem h3
      · rw [if_neg hpre] at hc; simp at hc
    obtain ⟨p, hp, hpn⟩ := hval
    exact ⟨p, hp, by simp [hc, hpn]⟩
  | none =>
    cases ha : Auto.aliasScan r fm wtm with
    | some n =>
      left
      obtain ⟨p, hp, hpn⟩ := aliasScan_mem ha
      exact ⟨p, hp, by simp [hc, ha, hpn]⟩
    | none =>
      cases hg : Auto.globalFieldScan r fm with
      | some n =>
        left
        obtain ⟨p, hp, hpn⟩ := globalFieldScan_mem hg
        exact ⟨p, hp, by simp [hc, ha, hg, hpn]⟩
      | none =>
        right
        simp [hc, ha, hg]

/-- C1: for every identifier string (empty, malformed, or absent included),
`resolve_table_id` and `resolve_field_id` return a string drawn from an
explicit, exhaustive set of outcomes — a sentinel for falsy input, a name
stored in one of the lookup structures, the (stripped) identifier itself, or,
in the worst case, the unresolved-reference marker embedding the identifier —
so resolution is total and never fails. -/
theorem C1_resolver_totality (ref : String) (wtm : List (String × Auto.WfMapEntry))
    (gtm : List (String × String)) (fm : List ((String × String) × String)) :
    (Auto.resolve_table_id ref wtm gtm = "未知表" ∨
     (∃ p ∈ gtm, Auto.resolve_table_id ref wtm gtm = p.2) ∨
     (∃ p ∈ wtm, Auto.resolve_table_id ref wtm gtm = stripChars ['"'] p.2.TableID) ∨
     Auto.resolve_table_id ref wtm gtm = stripChars ['\\', '"'] (stripChars ['"'] ref) ∨
     Auto.resolve_table_id ref wtm gtm
       = "[已删除的表:" ++ stripChars ['\\', '"'] (stripChars ['"'] ref) ++ "]") ∧
    (Auto.resolve_field_id ref wtm fm = "未知字段" ∨
     (∃ p ∈ fm, Auto.resolve_field_id ref wtm fm = p.2) ∨
     Auto.resolve_field_id ref wtm fm = "[已删除的字段:" ++ stripChars ['"'] ref ++ "]") := by
  constructor
  · by_cases h0 : ref = ""
    · left
      simp [Auto.resolve_table_id, h0]
    · unfold Auto.resolve_table_id
      rw [if_neg h0]
      cases hw : (if wtm.isEmpty then Option.none
          else alistLookup (stripChars ['\\', '"'] (stripChars ['"'] ref)) wtm) with
      | none =>
        cases hg : alistLookup (stripChars ['\\', '"'] (stripChars ['"'] ref)) gtm with
        | none =>
          right; right; right; right
          simp [hw, hg]
        | some name =>
          right; left
          exact ⟨(stripChars ['\\', '"'] (stripChars ['"'] ref), name),
            alistLookup_mem hg, by simp [hw, hg]⟩
      | some info =>
        have hmem : (stripChars ['\\', '"'] (stripChars ['"'] ref), info) ∈ wtm := by
          by_cases he : wtm.isEmpty = true <;> simp [he] at hw
          exact alistLookup_mem hw
        cases hg : alistLookup (stripChars ['"'] info.TableID) gtm with
        | some name =>
          right; left
          exact ⟨(stripChars ['"'] info.TableID, name), alistLookup_mem hg,
            by simp [hw, hg]⟩
        | none =>
          by_cases hr : stripChars ['"'] info.TableID = ""
          · right; right; right; left
            rw [hr] at hg
            simp [hw, hg, hr]
          · right; right; left
            exact ⟨(stripChars ['\\', '"'] (stripChars ['"'] ref), info), hmem,
              by simp [hw, hg, hr]⟩
  · by_cases h0 : ref = ""
    · left
      simp [Auto.resolve_field_id, h0]
    · right
      unfold Auto.resolve_field_id
      rw [if_neg h0]
      exact resolve_field_core_cases (stripChars ['"'] ref) wtm fm

theorem stripCharsL_cons_of_mem {cs : List Char} {c : Char} (h : c ∈ cs) (l : List Char) :
    stripCharsL cs (c :: l) = stripCharsL cs l := by
  simp [stripCharsL, List.dropWhile_cons, h]

theorem stripCharsL_concat_of_mem {cs : List Char} {c : Char} (h : c ∈ cs) (l : List Char) :
    stripCharsL cs (l ++ [c]) = stripCharsL cs l := by
  unfold stripCharsL
  rw [List.dropWhile_append]
  by_cases he : (l.dropWhile (· ∈ cs)).isEmpty = true
  · rw [if_pos he]
    rw [List.isEmpty_iff] at he
    simp [he, List.dropWhile_cons, h]
  · rw [if_neg he]
    simp [List.reverse_append, List.dropWhile_cons, h]

theorem stripChars_quoted (cs : List Char) (s : String) (h : '"' ∈ cs) :
    stripChars cs ("\"" ++ s ++ "\"") = stripChars cs s := by
  have hl : ("\"" ++ s ++ "\"").toList = '"' :: (s.toList ++ ['"']) := by
    simp [String.toList]
  rw [stripChars, hl, stripCharsL_cons_of_mem h, stripCharsL_concat_of_mem h]
  rfl

/-- C10 (amended): for every non-empty identifier string `s`, resolving the
double-quoted form through either resolver gives exactly the same result as
resolving the unquoted `s` (the quotes are stripped before every lookup, so
even the unresolved-reference marker embeds the stripped identifier); for the
empty string the two sides differ because the emptiness check precedes quote
stripping. -/
theorem C10_quote_stripping (s : String) (wtm : List (String × Auto.WfMapEntry))
    (gtm : List (String × String)) (fm : List ((String × String) × String))
    (hs : s ≠ "") :
    Auto.resolve_table_id ("\"" ++ s ++ "\"") wtm gtm = Auto.resolve_table_id s wtm gtm ∧
    Auto.resolve_field_id ("\"" ++ s ++ "\"") wtm fm = Auto.resolve_field_id s wtm fm := by
  have hq : ("\"" ++ s ++ "\"") ≠ "" := by
    intro h
    have h2 := congrArg String.toList h
    simp [String.toList] at h2
  constructor
  · unfold Auto.resolve_table_id
    rw [if_neg hq, if_neg hs, stripChars_quoted _ _ (by simp)]
  · unfold Auto.resolve_field_id
    rw [if_neg hq, if_neg hs, stripChars_quoted _ _ (by simp)]

/-- Witness for C10 at a concrete identifier. -/
theorem C10_quote_stripping_witness :
    Auto.resolve_table_id ("\"" ++ "tbl123" ++ "\"") [] [("tbl123", "成品表")]
      = Auto.resolve_table_id "tbl123" [] [("tbl123", "成品表")] ∧
    Auto.resolve_field_id ("\"" ++ "tbl123" ++ "\"") [] []
      = Auto.resolve_field_id "tbl123" [] [] :=
  C10_quote_stripping "tbl123" [] [("tbl123", "成品表")] [] (by decide)

/-- Counterexample to C10 as stated: for the empty identifier, resolving the
quoted form yields the unresolved-table marker while resolving the unquoted
form yields the fixed sentinel, because the falsy-input check runs before the
quotes are stripped. -/
theorem C10_counterexample :
    Auto.resolve_table_id ("\"" ++ "" ++ "\"") [] [] = "[已删除的表:]" ∧
    Auto.resolve_table_id "" [] [] = "未知表" ∧
    ("[已删除的表:]" : String) ≠ "未知表" := by
  refine ⟨by decide, by decide, by decide⟩

theorem aliasScan_none {r : String} {fm : List ((String × String) × String)}
    {wtm : List (String × Auto.WfMapEntry)}
    (h : ∀ p ∈ wtm, alistLookup r p.2.FieldMap = Option.none) :
    Auto.aliasScan r fm wtm = Option.none := by
  induction wtm with
  | nil => simp [Auto.aliasScan]
  | cons e rest ih =>
    obtain ⟨k, info⟩ := e
    have he := h (k, info) (List.mem_cons_self _ _)
    simp only [Auto.aliasScan, he]
    exact ih fun p hp => h p (List.mem_cons_of_mem _ hp)

theorem globalFieldScan_first {fid t n : String} (pre rest : List ((String × String) × String))
    (h : ∀ q ∈ pre, q.1.2 ≠ fid) :
    Auto.globalFieldScan fid (pre ++ ((t, fid), n) :: rest) = some n := by
  induction pre with
  | nil => simp [Auto.globalFieldScan]
  | cons q pre' ih =>
    obtain ⟨⟨qt, qf⟩, qn⟩ := q
    have hq : qf ≠ fid := h ((qt, qf), qn) (List.mem_cons_self _ _)
    simp only [List.cons_append, Auto.globalFieldScan, if_neg hq]
    exact ih fun p hp => h p (List.mem_cons_of_mem _ hp)

/-- C8: when an identifier takes none of the alias tiers (it carries no
`ref_tbl`/`ref_ref_tbl` prefix and no workflow alias map contains it), the
resolver's relaxed global scan returns the display name of the first entry in
registry iteration (insertion) order whose field id matches, ignoring the
table — deterministically, being a pure function of the registry — and the
marker only when no entry matches. -/
theorem C8_relaxed_scan_first_match (ref : String) (wtm : List (String × Auto.WfMapEntry))
    (fm : List ((String × String) × String))
    (h0 : ref ≠ "")
    (h1 : pyStartsWith (stripChars ['"'] ref) "ref_ref_tbl" = false)
    (h2 : pyStartsWith (stripChars ['"'] ref) "ref_tbl" = false)
    (h3 : ∀ p ∈ wtm, alistLookup (stripChars ['"'] ref) p.2.FieldMap = Option.none) :
    (Auto.resolve_field_id ref wtm fm =
      (match Auto.globalFieldScan (stripChars ['"'] ref) fm with
       | some name => name
       | Option.none => "[已删除的字段:" ++ stripChars ['"'] ref ++ "]")) ∧
    (∀ pre t n rest, fm = pre ++ ((t, stripChars ['"'] ref), n) :: rest →
      (∀ q ∈ pre, q.1.2 ≠ stripChars ['"'] ref) →
      Auto.resolve_field_id ref wtm fm = n) := by
  have hcore : Auto.resolve_field_id ref wtm fm =
      (match Auto.globalFieldScan (stripChars ['"'] ref) fm with
       | some name => name
       | Option.none => "[已删除的字段:" ++ stripChars ['"'] ref ++ "]") := by
    unfold Auto.resolve_field_id
    rw [if_neg h0]
    unfold Auto.resolve_field_core
    rw [h1, h2]
    simp only [Bool.or_self, Bool.false_eq_true, if_false]
    rw [aliasScan_none h3]
  refine ⟨hcore, ?_⟩
  rintro pre t n rest hfm hpre
  rw [hcore, hfm, globalFieldScan_first pre rest hpre]

/-- Witness for C8: two tables share the field id `fld1` with different
display names; the relaxed scan returns the first-registered name. -/
theorem C8_relaxed_scan_witness :
    Auto.resolve_field_id "fld1" []
      [(("tblA", "fld1"), "名甲"), (("tblB", "fld1"), "名乙")] = "名甲" := by
  have h := C8_relaxed_scan_first_match "fld1" []
    [(("tblA", "fld1"), "名甲"), (("tblB", "fld1"), "名乙")]
    (by decide) (by decide) (by decide) (by simp)
  exact h.2 [] "tblA" "名甲" [(("tblB", "fld1"), "名乙")] (by decide) (by simp)

namespace Auto

/-- A field definition inside a table's `fieldMap`: its display name (`""`
modelling a missing/falsy name) and the option list of its `property`. -/
structure FieldDef where
  name : String
  options : List (String × String)

/-- A table structure from a snapshot's `data` section: `meta.id`, `meta.name`
(`""` modelling missing/falsy) and the `fieldMap`. -/
structure STable where
  id : String
  name : String
  fieldMap : List (String × FieldDef)

/-- One snapshot item: whether it has a `schema` key, the schema's `tableMap`
(entry value `""` models a non-dict `tinfo` or a falsy name), whether the
schema has a `data` section, the `data.tables` list and the optional
`data.table` entry that the source appends to it. -/
structure SchemaItem where
  hasSchema : Bool
  tableMap : List (String × String)
  hasData : Bool
  tables : List STable
  table : Option STable

/-- The table list scanned for one item: `data.tables` with `data.table`
appended when present. -/
def itemTables (it : SchemaItem) : List STable := it.tables ++ it.table.toList

/-- Registration of one snapshot's authoritative `tableMap` entries:
`table_map[tid] = tinfo['name']` for every entry with a truthy name
(an unconditional overwrite). -/
def regTableMap (tm : List (String × String)) (entries : List (String × String)) :
    List (String × String) :=
  entries.foldl (fun tm e => if e.2 ≠ "" then alistInsert e.1 e.2 tm else tm) tm

/-- Registration of one table's fields:
`field_map[(table_id, field_id)] = field_def.get('name') or field_id`
(an unconditional overwrite on every occurrence). -/
def regFields (tid : String) (fm : List ((String × String) × String))
    (fields : List (String × FieldDef)) : List ((String × String) × String) :=
  fields.foldl (fun fm e =>
    alistInsert (tid, e.1) (if e.2.name ≠ "" then e.2.name else e.1) fm) fm

/-- Registration of the options of one table's fields:
`option_map[opt_id] = opt_name` for every option with a truthy id. -/
def regOptions (om : List (String × String)) (fields : List (String × FieldDef)) :
    List (String × String) :=
  fields.foldl (fun om e =>
    e.2.options.foldl (fun om o => if o.1 ≠ "" then alistInsert o.1 o.2 om else om) om) om

/-- Processing of one table structure: register `meta.id ↦ meta.name or id`
only when the id is truthy and not already registered, then register every
field (and its options) when the id is truthy. -/
def processTable (acc : List (String × String) × List ((String × String) × String) ×
    List (String × String)) (t : STable) :
    List (String × String) × List ((String × String) × String) × List (String × String) :=
  let tm := acc.1
  let fm := acc.2.1
  let om := acc.2.2
  let tm' := if t.id ≠ "" ∧ alistLookup t.id tm = Option.none then
      alistInsert t.id (if t.name ≠ "" then t.name else t.id) tm
    else tm
  if t.id ≠ "" then (tm', regFields t.id fm t.fieldMap, regOptions om t.fieldMap)
  else (tm', fm, om)

/-- Processing of one snapshot item: skip items without a schema; read the
authoritative `tableMap` first; then, if a `data` section exists, process its
table structures. -/
def processItem (acc : List (String × String) × List ((String × String) × String) ×
    List (String × String)) (it : SchemaItem) :
    List (String × String) × List ((String × String) × String) × List (String × String) :=
  if ¬ it.hasSchema then acc
  else
    let tm := regTableMap acc.1 it.tableMap
    if ¬ it.hasData then (tm, acc.2.1, acc.2.2)
    else (itemTables it).foldl processTable (tm, acc.2.1, acc.2.2)

/-- Registry construction (`build_name_registry`, generate_自动化地图.py lines
122-171; the table/field logic is duplicated verbatim in
generate_全量字段表.py and generate_关联关系图.py): returns the table-name
map, the field-name map keyed by (table id, field id), and the option map. -/
def build_name_registry (snapshot : List SchemaItem) :
    List (String × String) × List ((String × String) × String) × List (String × String) :=
  snapshot.foldl processItem ([], [], [])

end Auto

/-- The ordered list of names registered for table id `tid` through the
authoritative `tableMap` entries across a snapshot sequence. -/
def tableMapRegs (tid : String) (snapshot : List Auto.SchemaItem) : List String :=
  snapshot.flatMap fun it =>
    if it.hasSchema then
      (it.tableMap.filter fun e => e.1 = tid ∧ e.2 ≠ "").map (·.2)
    else []

/-- The ordered list of names that the metadata-inference path would register
for table id `tid` (the value is `meta.name or id`). -/
def metaRegVals (tid : String) (snapshot : List Auto.SchemaItem) : List String :=
  snapshot.flatMap fun it =>
    if it.hasSchema ∧ it.hasData then
      ((Auto.itemTables it).filter fun t => t.id = tid ∧ t.id ≠ "").map
        fun t => if t.name ≠ "" then t.name else t.id
    else []

/-- The ordered list of names registered for the (table id, field id) pair
across a snapshot sequence (the value is `field name or field id`). -/
def fieldRegs (tid fid : String) (snapshot : List Auto.SchemaItem) : List String :=
  snapshot.flatMap fun it =>
    if it.hasSchema ∧ it.hasData then
      (Auto.itemTables it).flatMap fun t =>
        if t.id = tid ∧ t.id ≠ "" then
          (t.fieldMap.filter fun e => e.1 = fid).map
            fun e => if e.2.name ≠ "" then e.2.name else e.1
        else []
    else []

theorem alistLookup_insert_self {κ α : Type} [DecidableEq κ] (k : κ) (v : α)
    (l : List (κ × α)) : alistLookup k (alistInsert k v l) = some v := by
  induction l with
  | nil => simp [alistInsert, alistLookup]
  | cons p rest ih =>
    obtain ⟨k', v'⟩ := p
    by_cases hk : k' = k
    · simp [alistInsert, alistLookup, hk]
    · simp [alistInsert, alistLookup, hk, ih]

theorem alistLookup_insert_ne {κ α : Type} [DecidableEq κ] {k k' : κ} (h : k' ≠ k)
    (v : α) (l : List (κ × α)) : alistLookup k (alistInsert k' v l) = alistLookup k l := by
  induction l with
  | nil => simp [alistInsert, alistLookup, h]
  | cons p rest ih =>
    obtain ⟨k'', v''⟩ := p
    by_cases hk : k'' = k'
    · subst hk
      simp [alistInsert, alistLookup, h]
    · simp [alistInsert, alistLookup, hk, ih]

theorem lookup_regTableMap (tid : String) (entries : List (String × String))
    (tm : List (String × String)) :
    alistLookup tid (Auto.regTableMap tm entries) =
      (((entries.filter fun e => e.1 = tid ∧ e.2 ≠ "").map (·.2)).getLast?).or
        (alistLookup tid tm) := by
  induction entries generalizing tm with
  | nil => simp [Auto.regTableMap]
  | cons e rest ih =>
    obtain ⟨k, name⟩ := e
    by_cases hn : name ≠ ""
    · by_cases hk : k = tid
      · subst hk
        have step : Auto.regTableMap tm ((k, name) :: rest)
            = Auto.regTableMap (alistInsert k name tm) rest := by
          simp [Auto.regTableMap, hn]
        rw [step, ih]
        have hfil : ((k, name) :: rest).filter (fun e => e.1 = k ∧ e.2 ≠ "")
            = (k, name) :: rest.filter (fun e => e.1 = k ∧ e.2 ≠ "") := by
          simp [List.filter_cons, hn]
        rw [hfil, List.map_cons, List.getLast?_cons, alistLookup_insert_self]
        cases hlast : (((rest.filter fun e => e.1 = k ∧ e.2 ≠ "").map (·.2)).getLast?) with
        | none => simp [hlast, Option.or]
        | some x => simp [hlast, Option.or]
      · have step : Auto.regTableMap tm ((k, name) :: rest)
            = Auto.regTableMap (alistInsert k name tm) rest := by
          simp [Auto.regTableMap, hn]
        rw [step, ih, alistLookup_insert_ne hk]
        have : ((k, name) :: rest).filter (fun e => e.1 = tid ∧ e.2 ≠ "")
            = rest.filter fun e => e.1 = tid ∧ e.2 ≠ "" := by
          simp [List.filter_cons, hk]
        rw [this]
    · push_neg at hn
      have step : Auto.regTableMap tm ((k, name) :: rest) = Auto.regTableMap tm rest := by
        simp [Auto.regTableMap, hn]
      rw [step, ih]
      have : ((k, name) :: rest).filter (fun e => e.1 = tid ∧ e.2 ≠ "")
          = rest.filter fun e => e.1 = tid ∧ e.2 ≠ "" := by
        simp [List.filter_cons, hn]
      rw [this]

theorem lookup_processTables_tm (tid : String) (ts : List Auto.STable)
    (acc : List (String × String) × List ((String × String) × String) × List (String × String)) :
    alistLookup tid ((ts.foldl Auto.processTable acc).1) =
      (alistLookup tid acc.1).or
        (((ts.filter fun t => t.id = tid ∧ t.id ≠ "").map
          fun t => if t.name ≠ "" then t.name else t.id).head?) := by
  induction ts generalizing acc with
  | nil => simp
  | cons t rest ih =>
    rw [List.foldl_cons, ih]
    have hacc1 : (Auto.processTable acc t).1 =
        (if t.id ≠ "" ∧ alistLookup t.id acc.1 = Option.none then
          alistInsert t.id (if t.name ≠ "" then t.name else t.id) acc.1
        else acc.1) := by
      unfold Auto.processTable
      by_cases h : t.id ≠ "" <;> simp [h]
    by_cases htid : t.id = tid
    · subst htid
      by_cases hne : t.id ≠ ""
      · have hfil : ((t :: rest).filter fun u => u.id = t.id ∧ u.id ≠ "")
            = t :: rest.filter fun u => u.id = t.id ∧ u.id ≠ "" := by
          simp [List.filter_cons, hne]
        rw [hfil, List.map_cons]
        cases hl : alistLookup t.id acc.1 with
        | none =>
          rw [hacc1, if_pos ⟨hne, hl⟩, alistLookup_insert_self]
          simp [Option.or]
        | some v =>
          rw [hacc1, if_neg (by simp [hl]), hl]
          simp [Option.or]
      · push_neg at hne
        have hfil : ((t :: rest).filter fun u => u.id = t.id ∧ u.id ≠ "")
            = rest.filter fun u => u.id = t.id ∧ u.id ≠ "" := by
          simp [List.filter_cons, hne]
        rw [hfil, hacc1, if_neg (by simp [hne])]
    · have hfil : ((t :: rest).filter fun u => u.id = tid ∧ u.id ≠ "")
          = rest.filter fun u => u.id = tid ∧ u.id ≠ "" := by
        simp [List.filter_cons, htid]
      rw [hfil, hacc1]
      by_cases hc : t.id ≠ "" ∧ alistLookup t.id acc.1 = Option.none
      · rw [if_pos hc, alistLookup_insert_ne htid]
      · rw [if_neg hc]

theorem lookup_regFields (tid fid tid0 : String) (fields : List (String × Auto.FieldDef))
    (fm : List ((String × String) × String)) :
    alistLookup (tid, fid) (Auto.regFields tid0 fm fields) =
      if tid0 = tid then
        (((fields.filter fun e => e.1 = fid).map
          fun e => if e.2.name ≠ "" then e.2.name else e.1).getLast?).or
          (alistLookup (tid, fid) fm)
      else alistLookup (tid, fid) fm := by
  induction fields generalizing fm with
  | nil => by_cases h : tid0 = tid <;> simp [Auto.regFields, h]
  | cons e rest ih =>
    have step : Auto.regFields tid0 fm (e :: rest)
        = Auto.regFields tid0
            (alistInsert (tid0, e.1) (if e.2.name ≠ "" then e.2.name else e.1) fm) rest := by
      simp [Auto.regFields]
    rw [step, ih]
    by_cases ht : tid0 = tid
    · subst ht
      by_cases hf : e.1 = fid
      · have hfil : ((e :: rest).filter fun u => u.1 = fid)
            = e :: rest.filter fun u => u.1 = fid := by
          simp [List.filter_cons, hf]
        rw [if_pos rfl, if_pos rfl, hfil, List.map_cons, List.getLast?_cons]
        rw [hf, alistLookup_insert_self]
        cases hlast : ((rest.filter fun u => u.1 = fid).map
            fun u => if u.2.name ≠ "" then u.2.name else u.1).getLast? with
        | none => simp [Option.or]
        | some x => simp [Option.or]
      · have hfil : ((e :: rest).filter fun u => u.1 = fid)
            = rest.filter fun u => u.1 = fid := by
          simp [List.filter_cons, hf]
        have hkey : (tid0, e.1) ≠ (tid0, fid) := by
          intro hcon
          exact hf (congrArg Prod.snd hcon)
        rw [if_pos rfl, if_pos rfl, hfil, alistLookup_insert_ne hkey]
    · have hkey : (tid0, e.1) ≠ (tid, fid) := by
        intro hcon
        exact ht (congrArg Prod.fst hcon)
      rw [if_neg ht, if_neg ht, alistLookup_insert_ne hkey]

theorem lookup_processTables_fm (tid fid : String) (ts : List Auto.STable)
    (acc : List (String × String) × List ((String × String) × String) × List (String × String)) :
    alistLookup (tid, fid) ((ts.foldl Auto.processTable acc).2.1) =
      ((ts.flatMap fun t =>
        if t.id = tid ∧ t.id ≠ "" then
          (t.fieldMap.filter fun e => e.1 = fid).map
            fun e => if e.2.name ≠ "" then e.2.name else e.1
        else []).getLast?).or
        (alistLookup (tid, fid) acc.2.1) := by
  induction ts generalizing acc with
  | nil => simp
  | cons t rest ih =>
    rw [List.foldl_cons, ih, List.flatMap_cons, List.getLast?_append]
    by_cases hne : t.id ≠ ""
    · have hacc2 : (Auto.processTable acc t).2.1 = Auto.regFields t.id acc.2.1 t.fieldMap := by
        unfold Auto.processTable
        simp [hne]
      rw [hacc2, lookup_regFields]
      by_cases htid : t.id = tid
      · rw [if_pos htid, if_pos ⟨htid, hne⟩]
        cases hA : ((rest.flatMap fun t =>
            if t.id = tid ∧ t.id ≠ "" then
              (t.fieldMap.filter fun e => e.1 = fid).map
                fun e => if e.2.name ≠ "" then e.2.name else e.1
            else []).getLast?) with
        | none => simp [Option.or]
        | some x => simp [Option.or]
      · rw [if_neg htid, if_neg (by simp [htid])]
        rw [List.getLast?_nil, Option.or_none]
    · push_neg at hne
      have hacc2 : (Auto.processTable acc t).2.1 = acc.2.1 := by
        unfold Auto.processTable
        simp [hne]
      rw [hacc2, if_neg (by simp [hne])]
      rw [List.getLast?_nil, Option.or_none]

theorem lookup_processItem_tm (tid : String) (it : Auto.SchemaItem)
    (acc : List (String × String) × List ((String × String) × String) × List (String × String)) :
    alistLookup tid ((Auto.processItem acc it).1) =
      ((tableMapRegs tid [it]).getLast?).or
        ((alistLookup tid acc.1).or ((metaRegVals tid [it]).head?)) := by
  unfold Auto.processItem
  by_cases hs : it.hasSchema
  · rw [if_neg (by simp [hs])]
    by_cases hd : it.hasData
    · rw [if_neg (by simp [hd])]
      rw [lookup_processTables_tm, lookup_regTableMap]
      simp only [tableMapRegs, metaRegVals, List.flatMap_cons, List.flatMap_nil,
        List.append_nil, hs, hd, if_pos, and_self, if_true]
      rw [Option.or_assoc]
    · rw [if_pos (by simp [hd])]
      simp only [lookup_regTableMap, tableMapRegs, metaRegVals, List.flatMap_cons,
        List.flatMap_nil, List.append_nil, hs, if_true]
      rw [if_neg (by simp [hd]), List.head?_nil, Option.or_none]
  · rw [if_pos (by simp [hs])]
    simp [tableMapRegs, metaRegVals, hs, Option.or]
    cases alistLookup tid acc.1 <;> rfl

theorem lookup_processItem_fm (tid fid : String) (it : Auto.SchemaItem)
    (acc : List (String × String) × List ((String × String) × String) × List (String × String)) :
    alistLookup (tid, fid) ((Auto.processItem acc it).2.1) =
      ((fieldRegs tid fid [it]).getLast?).or (alistLookup (tid, fid) acc.2.1) := by
  unfold Auto.processItem
  by_cases hs : it.hasSchema
  · rw [if_neg (by simp [hs])]
    by_cases hd : it.hasData
    · rw [if_neg (by simp [hd])]
      rw [lookup_processTables_fm]
      simp only [fieldRegs, List.flatMap_cons, List.flatMap_nil, List.append_nil,
        hs, hd, and_self, if_true]
    · rw [if_pos (by simp [hd])]
      simp only [fieldRegs, List.flatMap_cons, List.flatMap_nil, List.append_nil]
      rw [if_neg (by simp [hd]), List.getLast?_nil, Option.none_or]
  · rw [if_pos (by simp [hs])]
    simp only [fieldRegs, List.flatMap_cons, List.flatMap_nil, List.append_nil]
    rw [if_neg (by simp [hs]), List.getLast?_nil, Option.none_or]

theorem regsLists_cons (tid fid : String) (it : Auto.SchemaItem)
    (rest : List Auto.SchemaItem) :
    tableMapRegs tid (it :: rest) = tableMapRegs tid [it] ++ tableMapRegs tid rest ∧
    metaRegVals tid (it :: rest) = metaRegVals tid [it] ++ metaRegVals tid rest ∧
    fieldRegs tid fid (it :: rest) = fieldRegs tid fid [it] ++ fieldRegs tid fid rest := by
  refine ⟨?_, ?_, ?_⟩ <;>
    simp [tableMapRegs, metaRegVals, fieldRegs, List.flatMap_cons]

theorem lookup_build_tm_invariant (tid : String) (items : List Auto.SchemaItem)
    (acc : List (String × String) × List ((String × String) × String) × List (String × String)) :
    alistLookup tid ((items.foldl Auto.processItem acc).1) =
      ((tableMapRegs tid items).getLast?).or
        ((alistLookup tid acc.1).or ((metaRegVals tid items).head?)) := by
  induction items generalizing acc with
  | nil =>
    simp [tableMapRegs, metaRegVals, Option.or]
    cases alistLookup tid acc.1 <;> rfl
  | cons it rest ih =>
    rw [List.foldl_cons, ih, lookup_processItem_tm,
      (regsLists_cons tid "" it rest).1, (regsLists_cons tid "" it rest).2.1,
      List.getLast?_append, List.head?_append]
    cases (tableMapRegs tid rest).getLast? with
    | some x => simp [Option.or]
    | none =>
      cases (tableMapRegs tid [it]).getLast? with
      | some y => simp [Option.or]
      | none =>
        cases alistLookup tid acc.1 with
        | some v => simp [Option.or]
        | none =>
          cases (metaRegVals tid [it]).head? with
          | some w => simp [Option.or]
          | none => simp [Option.or]

theorem lookup_build_fm_invariant (tid fid : String) (items : List Auto.SchemaItem)
    (acc : List (String × String) × List ((String × String) × String) × List (String × String)) :
    alistLookup (tid, fid) ((items.foldl Auto.processItem acc).2.1) =
      ((fieldRegs tid fid items).getLast?).or (alistLookup (tid, fid) acc.2.1) := by
  induction items generalizing acc with
  | nil => simp [fieldRegs, Option.or]
  | cons it rest ih =>
    rw [List.foldl_cons, ih, lookup_processItem_fm,
      (regsLists_cons tid fid it rest).2.2, List.getLast?_append]
    cases (fieldRegs tid fid rest).getLast? with
    | some x => simp [Option.or]
    | none =>
      cases (fieldRegs tid fid [it]).getLast? with
      | some y => simp [Option.or]
      | none => simp [Option.or]

/-- C2 (amended): the final registry name of a table id is the **last**
registration coming from an authoritative `tableMap` across the ordered
snapshot sequence when at least one exists — so the authoritative map always
takes precedence over inferred metadata, but a later snapshot's `tableMap`
registration **overwrites** an earlier one — and only when no `tableMap`
registration exists is it the **first** metadata-inferred registration
(first-writer-wins holds only for the metadata path). -/
theorem C2_registry_table_precedence (snapshot : List Auto.SchemaItem) (tid : String) :
    alistLookup tid (Auto.build_name_registry snapshot).1 =
      ((tableMapRegs tid snapshot).getLast?).or ((metaRegVals tid snapshot).head?) := by
  unfold Auto.build_name_registry
  rw [lookup_build_tm_invariant]
  simp [alistLookup]

/-- Counterexample to C2 as stated: two snapshots whose authoritative
`tableMap` registers the same table id with names `"A"` then `"B"`; the
final registry holds `"B"`, so the first registration did not win. -/
theorem C2_counterexample :
    alistLookup "tbl1" (Auto.build_name_registry
      [⟨true, [("tbl1", "A")], false, [], Option.none⟩]).1 = some "A" ∧
    alistLookup "tbl1" (Auto.build_name_registry
      [⟨true, [("tbl1", "A")], false, [], Option.none⟩,
       ⟨true, [("tbl1", "B")], false, [], Option.none⟩]).1 = some "B" ∧
    (some "B" : Option String) ≠ some "A" := by
  refine ⟨by decide, by decide, by decide⟩

/-- C3: the final registry name of a (table id, field id) pair is the value of
its **last** registration across the ordered snapshot sequence
(last-writer-wins: a field registered with name A in an earlier snapshot and
name B in a later one ends up mapped to B). -/
theorem C3_registry_field_last_writer_wins (snapshot : List Auto.SchemaItem)
    (tid fid : String) :
    alistLookup (tid, fid) (Auto.build_name_registry snapshot).2.1 =
      (fieldRegs tid fid snapshot).getLast? := by
  unfold Auto.build_name_registry
  rw [lookup_build_fm_invariant]
  simp [alistLookup]

/-- Lazy capture of `(.*?)\]` without DOTALL: the shortest newline-free run up
to the first `]`, together with the remainder after it. -/
def splitBrack : List Char → Option (List Char × List Char)
  | [] => Option.none
  | c :: r =>
    if c = ']' then some ([], r)
    else if c = '\n' then Option.none
    else
      match splitBrack r with
      | some (a, b) => some (c :: a, b)
      | Option.none => Option.none

theorem splitBrack_length {l a b : List Char} (h : splitBrack l = some (a, b)) :
    b.length < l.length := by
  induction l generalizing a b with
  | nil => simp [splitBrack] at h
  | cons c r ih =>
    by_cases hc : c = ']'
    · simp [splitBrack, hc] at h
      obtain ⟨_, hb⟩ := h
      subst hb
      simp
    · by_cases hn : c = '\n'
      · simp [splitBrack, hc, hn] at h
      · simp only [splitBrack, if_neg hc, if_neg hn] at h
        cases hr : splitBrack r with
        | none => rw [hr] at h; simp at h
        | some p =>
          obtain ⟨a', b'⟩ := p
          rw [hr] at h
          simp at h
          obtain ⟨_, hb⟩ := h
          subst hb
          have := ih hr
          simp
          omega

/-- Lazy capture of `(.*?)\)` with DOTALL: the shortest run up to the first
`)`, together with the remainder after it. -/
def splitParen : List Char → Option (List Char × List Char)
  | [] => Option.none
  | c :: r =>
    if c = ')' then some ([], r)
    else
      match splitParen r with
      | some (a, b) => some (c :: a, b)
      | Option.none => Option.none

theorem splitParen_length {l a b : List Char} (h : splitParen l = some (a, b)) :
    b.length < l.length := by
  induction l generalizing a b with
  | nil => simp [splitParen] at h
  | cons c r ih =>
    by_cases hc : c = ')'
    · simp [splitParen, hc] at h
      obtain ⟨_, hb⟩ := h
      subst hb
      simp
    · simp only [splitParen, if_neg hc] at h
      cases hr : splitParen r with
      | none => rw [hr] at h; simp at h
      | some p =>
        obtain ⟨a', b'⟩ := p
        rw [hr] at h
        simp at h
        obtain ⟨_, hb⟩ := h
        subst hb
        have := ih hr
        simp
        omega

/-- The literal opening of a table-reference token. -/
def tableLit : List Char := "bitable::$table[".toList

/-- The literal opening of the two field-reference token spellings. -/
def fieldLit : List Char := "$field[".toList

/-- See `fieldLit`. -/
def columnLit : List Char := "$column[".toList

/-- `re.sub(r'bitable::\$table\[(.*?)\]', repl, ·)`: leftmost non-overlapping
matches, replacement text not rescanned; an unterminated opening advances the
scan by one character, as the regex engine does. -/
def reSubTable (repl : String → String) : List Char → List Char
  | [] => []
  | c :: r =>
    if tableLit.isPrefixOf (c :: r) then
      match h : splitBrack ((c :: r).drop tableLit.length) with
      | some (cap, rest) => (repl (String.mk cap)).toList ++ reSubTable repl rest
      | Option.none => c :: reSubTable repl r
    else c :: reSubTable repl r
termination_by l => l.length
decreasing_by
  · have h1 := splitBrack_length h
    have h2 : ((c :: r).drop tableLit.length).length ≤ (c :: r).length := by
      simp [List.length_drop]
    omega
  · simp
  · simp

/-- `re.sub(r'\$(?:field|column)\[(.*?)\]', repl, ·)`. -/
def reSubField (repl : String → String) : List Char → List Char
  | [] => []
  | c :: r =>
    if fieldLit.isPrefixOf (c :: r) then
      match h : splitBrack ((c :: r).drop fieldLit.length) with
      | some (cap, rest) => (repl (String.mk cap)).toList ++ reSubField repl rest
      | Option.none => c :: reSubField repl r
    else if columnLit.isPrefixOf (c :: r) then
      match h : splitBrack ((c :: r).drop columnLit.length) with
      | some (cap, rest) => (repl (String.mk cap)).toList ++ reSubField repl rest
      | Option.none => c :: reSubField repl r
    else c :: reSubField repl r
termination_by l => l.length
decreasing_by
  · have h1 := splitBrack_length h
    have h2 : ((c :: r).drop fieldLit.length).length ≤ (c :: r).length := by
      simp [List.length_drop]
    omega
  · simp
  · have h1 := splitBrack_length h
    have h2 : ((c :: r).drop columnLit.length).length ≤ (c :: r).length := by
      simp [List.length_drop]
    omega
  · simp
  · simp

/-- Python `s.replace(old, new)` on character lists (leftmost,
non-overlapping; only used with a non-empty `old`). -/
def replaceL (old new : List Char) : List Char → List Char
  | [] => []
  | c :: r =>
    if ¬ old.isEmpty ∧ old.isPrefixOf (c :: r) then
      new ++ replaceL old new ((c :: r).drop old.length)
    else c :: replaceL old new r
termination_by l => l.length
decreasing_by
  · rename_i hcond
    have hlen : 1 ≤ old.length := by
      cases old with
      | nil => simp at hcond
      | cons _ _ => simp
    simp [List.length_drop]
    omega
  · simp

/-- Python `s.replace(old, new)` on strings. -/
def pyReplace (s old new : String) : String :=
  String.mk (replaceL old.toList new.toList s.toList)

/-- The literal opening of a FILTER sub-expression. -/
def filterLit : List Char := ".FILTER(".toList

/-- `re.findall(r'\.FILTER\((.*?)\)', ·, re.DOTALL)`: the list of captured
filter bodies, scanning left to right without overlap. -/
def findFilterBlocks : List Char → List (List Char)
  | [] => []
  | c :: r =>
    if filterLit.isPrefixOf (c :: r) then
      match h : splitParen ((c :: r).drop filterLit.length) with
      | some (body, rest) => body :: findFilterBlocks rest
      | Option.none => findFilterBlocks r
    else findFilterBlocks r
termination_by l => l.length
decreasing_by
  · have h1 := splitParen_length h
    have h2 : ((c :: r).drop filterLit.length).length ≤ (c :: r).length := by
      simp [List.length_drop]
    omega
  · simp
  · simp

/-- Is the character Python whitespace (`\s`)? -/
def isPySpace (c : Char) : Bool := c ∈ pySpaceChars

/-- Matching of the pattern tail `\s* <op> \s* ([^&\)]+)`: skip whitespace,
require the operator literal, skip whitespace, then capture the non-empty
greedy run of characters other than `&` and `)`; returns the capture and the
remainder after it. -/
def checkOpRhs (op : List Char) (l : List Char) : Option (List Char × List Char) :=
  let l1 := l.dropWhile isPySpace
  if op.isPrefixOf l1 then
    let l2 := (l1.drop op.length).dropWhile isPySpace
    let run := l2.takeWhile fun c => c != '&' && c != ')'
    if run.isEmpty then Option.none else some (run, l2.drop run.length)
  else Option.none

theorem checkOpRhs_length {op l rhs rest : List Char}
    (h : checkOpRhs op l = some (rhs, rest)) : rest.length < l.length := by
  unfold checkOpRhs at h
  by_cases hp : op.isPrefixOf (l.dropWhile isPySpace)
  · rw [if_pos hp] at h
    set l2 := ((l.dropWhile isPySpace).drop op.length).dropWhile isPySpace with hl2
    set run := l2.takeWhile fun c => c != '&' && c != ')' with hrun
    by_cases hr : run.isEmpty
    · rw [if_pos hr] at h
      simp at h
    · rw [if_neg hr] at h
      simp at h
      obtain ⟨_, hrest⟩ := h
      have h1 : 1 ≤ run.length := by
        cases hrc : run with
        | nil => rw [hrc] at hr; simp at hr
        | cons _ _ => simp [hrc]
      have h2 : l2.length ≤ l.length := by
        have a1 : l2.length ≤ ((l.dropWhile isPySpace).drop op.length).length :=
          (List.dropWhile_sublist _).length_le
        have a2 : ((l.dropWhile isPySpace).drop op.length).length
            ≤ (l.dropWhile isPySpace).length := by
          simp [List.length_drop]
        have a3 : (l.dropWhile isPySpace).length ≤ l.length :=
          (List.dropWhile_sublist _).length_le
        omega
      have h3 : run.length ≤ l2.length := by
        rw [hrun]
        exact (List.takeWhile_sublist _).length_le
      have h4 : rest.length = l2.length - run.length := by
        rw [← hrest, List.length_drop]
      omega
  · rw [if_neg hp] at h
    simp at h

/-- Lazy capture of `(.*?)\]` followed by `\s* <op> \s* ([^&\)]+)`, with the
regex engine's backtracking: the capture is the shortest newline-free run up
to a `]` whose continuation matches the operator-and-right-side tail. -/
def splitBrackOp (op : List Char) : List Char → Option (List Char × List Char × List Char)
  | [] => Option.none
  | c :: r =>
    if c = '\n' then Option.none
    else
      match (if c = ']' then checkOpRhs op r else Option.none) with
      | some (rhs, rest) => some ([], rhs, rest)
      | Option.none =>
        match splitBrackOp op r with
        | some (cap, rhs, rest) => some (c :: cap, rhs, rest)
        | Option.none => Option.none

theorem splitBrackOp_length {op l cap rhs rest : List Char}
    (h : splitBrackOp op l = some (cap, rhs, rest)) : rest.length < l.length := by
  induction l generalizing cap rhs rest with
  | nil => simp [splitBrackOp] at h
  | cons c r ih =>
    by_cases hn : c = '\n'
    · simp [splitBrackOp, hn] at h
    · simp only [splitBrackOp, if_neg hn] at h
      cases hck : (if c = ']' then checkOpRhs op r else Option.none) with
      | some p =>
        obtain ⟨rhs', rest'⟩ := p
        rw [hck] at h
        simp at h
        obtain ⟨_, _, hrest⟩ := h
        subst hrest
        by_cases hc : c = ']'
        · rw [if_pos hc] at hck
          have := checkOpRhs_length hck
          simp
          omega
        · rw [if_neg hc] at hck
          simp at hck
      | none =>
        rw [hck] at h
        cases hsp : splitBrackOp op r with
        | none => rw [hsp] at h; simp at h
        | some q =>
          obtain ⟨cap', rhs', rest'⟩ := q
          rw [hsp] at h
          simp at h
          obtain ⟨_, _, hrest⟩ := h
          subst hrest
          have := ih hsp
          simp
          omega

/-- The literal head of the raw-token comparison pattern
`CurrentValue\.\$(?:column|field)\[`, `field` spelling. -/
def cvFieldLit : List Char := "CurrentValue.$field[".toList

/-- See `cvFieldLit` (`column` spelling). -/
def cvColumnLit : List Char := "CurrentValue.$column[".toList

/-- Attempted match of `CurrentValue\.\$(?:column|field)\[(.*?)\]\s*op\s*([^&\)]+)`
at the head of the input. -/
def tryCondQF (op : List Char) (l : List Char) : Option (List Char × List Char × List Char) :=
  if cvColumnLit.isPrefixOf l then splitBrackOp op (l.drop cvColumnLit.length)
  else if cvFieldLit.isPrefixOf l then splitBrackOp op (l.drop cvFieldLit.length)
  else Option.none

theorem tryCondQF_length {op l cap rhs rest : List Char}
    (h : tryCondQF op l = some (cap, rhs, rest)) : rest.length < l.length := by
  unfold tryCondQF at h
  by_cases h1 : cvColumnLit.isPrefixOf l
  · rw [if_pos h1] at h
    have hl := splitBrackOp_length h
    have hlen : 1 ≤ l.length := by
      cases l with
      | nil => simp [cvColumnLit, List.isPrefixOf] at h1
      | cons _ _ => simp
    have : (l.drop cvColumnLit.length).length ≤ l.length - 1 := by
      have hc : 1 ≤ cvColumnLit.length := by simp [cvColumnLit]
      simp [List.length_drop]
      omega
    omega
  · rw [if_neg h1] at h
    by_cases h2 : cvFieldLit.isPrefixOf l
    · rw [if_pos h2] at h
      have hl := splitBrackOp_length h
      have : (l.drop cvFieldLit.length).length ≤ l.length := by
        simp [List.length_drop]
      omega
    · rw [if_neg h2] at h
      simp at h

/-- `re.findall` of the raw-token comparison pattern over a filter body:
scan left to right; record each match's (field-id capture, right side) and
continue after the match, else advance one character. -/
def findCondsQF (op : List Char) : List Char → List (List Char × List Char)
  | [] => []
  | c :: r =>
    match h : tryCondQF op (c :: r) with
    | some (cap, rhs, rest) => (cap, rhs) :: findCondsQF op rest
    | Option.none => findCondsQF op r
termination_by l => l.length
decreasing_by
  · exact tryCondQF_length h
  · simp

/-- The literal head of the translated-text comparison pattern
`CurrentValue\.「([^」]+)」`. -/
def cvKaiLit : List Char := "CurrentValue.「".toList

/-- Attempted match of `CurrentValue\.「([^」]+)」\s*op\s*([^&\)]+)` at the
head of the input (the display-name capture is the maximal run of
non-`」` characters and must be non-empty). -/
def tryCondGL (op : List Char) (l : List Char) : Option (List Char × List Char × List Char) :=
  if cvKaiLit.isPrefixOf l then
    let afterKai := l.drop cvKaiLit.length
    let cap := afterKai.takeWhile (· != '」')
    if cap.isEmpty then Option.none
    else
      match afterKai.drop cap.length with
      | c :: tail =>
        if c = '」' then
          match checkOpRhs op tail with
          | some (rhs, rest) => some (cap, rhs, rest)
          | Option.none => Option.none
        else Option.none
      | [] => Option.none
  else Option.none

theorem tryCondGL_length {op l cap rhs rest : List Char}
    (h : tryCondGL op l = some (cap, rhs, rest)) : rest.length < l.length := by
  unfold tryCondGL at h
  by_cases h1 : cvKaiLit.isPrefixOf l
  · rw [if_pos h1] at h
    set afterKai := l.drop cvKaiLit.length with hak
    set cap' := afterKai.takeWhile (· != '」') with hcap
    by_cases h2 : cap'.isEmpty
    · rw [if_pos h2] at h
      simp at h
    · rw [if_neg h2] at h
      cases hd : afterKai.drop cap'.length with
      | nil => rw [hd] at h; simp at h
      | cons c tail =>
        rw [hd] at h
        dsimp only at h
        by_cases h3 : c = '」'
        · rw [if_pos h3] at h
          cases hck : checkOpRhs op tail with
          | none => rw [hck] at h; simp at h
          | some p =>
            obtain ⟨rhs', rest'⟩ := p
            rw [hck] at h
            simp at h
            obtain ⟨_, _, hrest⟩ := h
            subst hrest
            have c1 := checkOpRhs_length hck
            have c2 : tail.length < afterKai.length := by
              have := congrArg List.length hd
              simp [List.length_drop] at this
              omega
            have c3 : afterKai.length ≤ l.length := by
              simp [hak, List.length_drop]
            omega
        · rw [if_neg h3] at h
          simp at h
  · rw [if_neg h1] at h
    simp at h

/-- `re.findall` of the translated-text comparison pattern over a filter
body. -/
def findCondsGL (op : List Char) : List Char → List (List Char × List Char)
  | [] => []
  | c :: r =>
    match h : tryCondGL op (c :: r) with
    | some (cap, rhs, rest) => (cap, rhs) :: findCondsGL op rest
    | Option.none => findCondsGL op r
termination_by l => l.length
decreasing_by
  · exact tryCondGL_length h
  · simp

namespace Master

/-- The table-token replacement of `translate_formula` in
generate_全量字段表.py: registered truthy name, else the deleted-table
marker embedding the captured id. -/
def replace_table (table_map : List (String × String)) (tid : String) : String :=
  match Auto.truthyS (alistLookup tid table_map) with
  | some tname => "「" ++ tname ++ "」"
  | Option.none => "「[已删除的表:" ++ tid ++ "]」"

/-- The field-token replacement of `translate_formula` in
generate_全量字段表.py: current table first, then a global scan, then the
unknown-field marker embedding the captured id. -/
def replace_field (current_table_id : String)
    (field_map : List ((String × String) × String)) (fid : String) : String :=
  match Auto.truthyS (alistLookup (current_table_id, fid) field_map) with
  | some fname => "「" ++ fname ++ "」"
  | Option.none =>
    match Auto.globalFieldScan fid field_map with
    | some name => "「" ++ name ++ "」"
    | Option.none => "「[未知字段:" ++ fid ++ "]」"

/-- Formula translation of generate_全量字段表.py (lines 111-148): replace
table-reference tokens, then field-reference tokens, then strip the
`bitable::` namespace prefix. -/
def translate_formula (formula : String) (current_table_id : String)
    (table_map : List (String × String))
    (field_map : List ((String × String) × String)) : String :=
  if formula = "" then ""
  else
    let s1 := reSubTable (replace_table table_map) formula.toList
    let s2 := reSubField (replace_field current_table_id field_map) s1
    String.mk (replaceL "bitable::".toList [] s2)

/-- FILTER-clause extraction of generate_全量字段表.py (lines 250-287): the
comparison patterns are matched against the **raw** formula's reference
tokens; only the right side of each clause is translated. -/
def extract_filter_conditions_from_formula (formula : String) (current_table_id : String)
    (table_map : List (String × String))
    (field_map : List ((String × String) × String)) : String :=
  if formula = "" then ""
  else
    let clauseOf : String → (List Char × List Char) → String := fun sym m =>
      let left_fid := String.mk m.1
      let left_fname0 := (alistLookup (current_table_id, left_fid) field_map).getD left_fid
      let left_fname :=
        if left_fname0 = left_fid then
          match Auto.globalFieldScan left_fid field_map with
          | some name => name
          | Option.none => left_fname0
        else left_fname0
      let right_translated :=
        translate_formula (pyStripWs (String.mk m.2)) current_table_id table_map field_map
      "「" ++ left_fname ++ "」" ++ sym ++ " " ++ right_translated
    let conditions := (findFilterBlocks formula.toList).flatMap fun body =>
      (findCondsQF ['='] body).map (clauseOf "=") ++
      (findCondsQF ['!', '='] body).map (clauseOf "≠")
    if conditions.isEmpty then "" else pyJoin " 且 " conditions

end Master

namespace Graph

/-- `get_table_name` of generate_关联关系图.py (lines 88-96). -/
def get_table_name (table_id : String) (table_map : List (String × String)) : String :=
  if table_id = "" then "未知表"
  else
    match Auto.truthyS (alistLookup table_id table_map) with
    | some name => name
    | Option.none => "[已删除的表:" ++ table_id ++ "]"

/-- `get_field_name` of generate_关联关系图.py (lines 99-115). -/
def get_field_name (table_id field_id : String)
    (field_map : List ((String × String) × String)) : String :=
  if field_id = "" then "未知字段"
  else
    match Auto.truthyS (alistLookup (table_id, field_id) field_map) with
    | some name => name
    | Option.none =>
      match Auto.globalFieldScan field_id field_map with
      | some fname => fname
      | Option.none => "[已删除的字段:" ++ field_id ++ "]"

/-- Formula translation of generate_关联关系图.py (lines 118-140). -/
def translate_formula (formula : String) (current_table_id : String)
    (table_map : List (String × String))
    (field_map : List ((String × String) × String)) : String :=
  if formula = "" then ""
  else
    let s1 := reSubTable
      (fun tid => "「" ++ get_table_name tid table_map ++ "」") formula.toList
    let s2 := reSubField
      (fun fid => "「" ++ get_field_name current_table_id fid field_map ++ "」") s1
    String.mk (replaceL "bitable::".toList [] s2)

/-- The equality and inequality clauses collected from the FILTER blocks of a
piece of (already translated) text. -/
def filterClauses (txt : String) : List String :=
  (findFilterBlocks txt.toList).flatMap fun body =>
    (findCondsGL ['='] body).map
      (fun m => "「" ++ String.mk m.1 ++ "」= " ++ pyStripWs (String.mk m.2)) ++
    (findCondsGL ['!', '='] body).map
      (fun m => "「" ++ String.mk m.1 ++ "」≠ " ++ pyStripWs (String.mk m.2))

/-- The pure scanning part of `extract_filter_conditions`: given a piece of
(already translated) text, collect the equality and inequality clauses of its
FILTER blocks and join them with the conjunction marker. -/
def filterSummaryOfText (txt : String) : String :=
  if (filterClauses txt).isEmpty then ""
  else "筛选条件: " ++ pyJoin " 且 " (filterClauses txt)

/-- FILTER-clause extraction of generate_关联关系图.py (lines 160-189): the
formula is first fully translated, and the comparison patterns are then
matched against the translated text's display-name brackets. -/
def extract_filter_conditions (formula : String) (current_table_id : String)
    (table_map : List (String × String))
    (field_map : List ((String × String) × String)) : String :=
  if formula = "" then ""
  else filterSummaryOfText (translate_formula formula current_table_id table_map field_map)

end Graph

/-- C4 (amended): in generate_关联关系图.py, `extract_filter_conditions` first
substitutes every reference token (via `translate_formula`) and only then
scans the resulting text for FILTER sub-expressions, matching comparison
patterns against display-name brackets; the extracted equality and inequality
clauses are joined with the conjunction marker ` 且 ` under the prefix
`筛选条件: `.  (In generate_全量字段表.py, by contrast,
`extract_filter_conditions_from_formula` matches raw reference tokens in the
untranslated formula and translates only each clause's right-hand side — see
the counterexample.) -/
theorem C4_translate_then_extract (f tid : String) (tm : List (String × String))
    (fm : List ((String × String) × String)) :
    Graph.extract_filter_conditions f tid tm fm
      = Graph.filterSummaryOfText (Graph.translate_formula f tid tm fm) ∧
    (Graph.extract_filter_conditions f tid tm fm = "" ∨
     ∃ clauses : List String, clauses ≠ [] ∧
       Graph.extract_filter_conditions f tid tm fm
         = "筛选条件: " ++ pyJoin " 且 " clauses) := by
  have hmain : Graph.extract_filter_conditions f tid tm fm
      = Graph.filterSummaryOfText (Graph.translate_formula f tid tm fm) := by
    by_cases hf : f = ""
    · subst hf
      simp [Graph.extract_filter_conditions, Graph.translate_formula,
        Graph.filterSummaryOfText, Graph.filterClauses, findFilterBlocks]
    · simp [Graph.extract_filter_conditions, hf]
  refine ⟨hmain, ?_⟩
  rw [hmain]
  unfold Graph.filterSummaryOfText
  cases hc : (Graph.filterClauses (Graph.translate_formula f tid tm fm)).isEmpty
  · right
    refine ⟨Graph.filterClauses (Graph.translate_formula f tid tm fm), ?_, by simp [hc]⟩
    intro hnil
    rw [hnil] at hc
    simp at hc
  · left
    simp [hc]

/-- Counterexample to C4 as stated: on a formula whose FILTER body already
carries a display-name-bracket comparison (and no raw tokens, so translation
is the identity), the 关联关系图 extractor finds the clause, but the
全量字段表 extractor returns nothing — it scans the raw formula for raw
reference tokens instead of scanning translated text, so for it extraction
does not operate on the already-translated expression text. -/
theorem C4_counterexample :
    Master.translate_formula "X.FILTER(CurrentValue.「某」=1)" "t" [] []
      = "X.FILTER(CurrentValue.「某」=1)" ∧
    Master.extract_filter_conditions_from_formula
      "X.FILTER(CurrentValue.「某」=1)" "t" [] [] = "" ∧
    Graph.extract_filter_conditions "X.FILTER(CurrentValue.「某」=1)" "t" [] []
      = "筛选条件: 「某」= 1" := by
  refine ⟨?_, ?_, ?_⟩
  · simp [Master.translate_formula, reSubTable, reSubField, replaceL,
      tableLit, fieldLit, columnLit, splitBrack, List.isPrefixOf]
  · simp [Master.extract_filter_conditions_from_formula, findFilterBlocks, splitParen,
      filterLit, findCondsQF, tryCondQF, cvFieldLit, cvColumnLit, splitBrackOp,
      checkOpRhs, isPySpace, pySpaceChars, pyJoin, List.takeWhile, List.dropWhile,
      List.isPrefixOf]
  · simp [Graph.extract_filter_conditions, Graph.translate_formula,
      Graph.filterSummaryOfText, Graph.filterClauses,
      reSubTable, reSubField, replaceL, tableLit, fieldLit, columnLit, splitBrack,
      findFilterBlocks, splitParen, filterLit, findCondsGL, tryCondGL, cvKaiLit,
      checkOpRhs, isPySpace, pySpaceChars, pyJoin, pyStripWs, stripChars, stripCharsL,
      List.takeWhile, List.dropWhile, List.isPrefixOf]

/-- No match of `lit` starts inside the first `pre.length` positions of
`pre ++ rest`. -/
def noMatchStartIn (lit pre rest : List Char) : Prop :=
  ∀ i, i < pre.length → lit.isPrefixOf ((pre ++ rest).drop i) = false

instance (lit pre rest : List Char) : Decidable (noMatchStartIn lit pre rest) :=
  Nat.decidableBallLT _ _

theorem isPrefixOf_self_append (l x : List Char) : l.isPrefixOf (l ++ x) = true := by
  induction l with
  | nil => simp [List.isPrefixOf]
  | cons c r ih => simp [List.isPrefixOf, ih]

theorem splitBrack_exact {tid : List Char} (post : List Char)
    (h1 : ']' ∉ tid) (h2 : '\n' ∉ tid) :
    splitBrack (tid ++ ']' :: post) = some (tid, post) := by
  induction tid with
  | nil => simp [splitBrack]
  | cons c r ih =>
    have hc : c ≠ ']' := fun hh => h1 (hh ▸ List.mem_cons_self _ _)
    have hn : c ≠ '\n' := fun hh => h2 (hh ▸ List.mem_cons_self _ _)
    rw [List.cons_append]
    simp only [splitBrack, if_neg hc, if_neg hn]
    rw [ih (fun hm => h1 (List.mem_cons_of_mem _ hm))
      (fun hm => h2 (List.mem_cons_of_mem _ hm))]

theorem reSubTable_append (repl : String → String) (pre rest : List Char)
    (h : noMatchStartIn tableLit pre rest) :
    reSubTable repl (pre ++ rest) = pre ++ reSubTable repl rest := by
  induction pre with
  | nil => simp
  | cons c pre' ih =>
    have h0 : tableLit.isPrefixOf (c :: (pre' ++ rest)) = false := by
      have := h 0 (by simp)
      simpa using this
    rw [List.cons_append, reSubTable, if_neg (by simp [h0])]
    rw [ih fun i hi => by
      have := h (i + 1) (by simp; omega)
      simpa using this]
    simp

theorem reSubTable_id (repl : String → String) (l : List Char)
    (h : occursIn tableLit l = false) : reSubTable repl l = l := by
  induction l with
  | nil => simp [reSubTable]
  | cons c r ih =>
    simp only [occursIn, Bool.or_eq_false_iff] at h
    rw [reSubTable, if_neg (by simp [h.1]), ih h.2]

theorem reSubField_id (repl : String → String) (l : List Char)
    (h1 : occursIn fieldLit l = false) (h2 : occursIn columnLit l = false) :
    reSubField repl l = l := by
  induction l with
  | nil => simp [reSubField]
  | cons c r ih =>
    simp only [occursIn, Bool.or_eq_false_iff] at h1 h2
    rw [reSubField, if_neg (by simp [h1.1]), if_neg (by simp [h2.1]), ih h1.2 h2.2]

theorem replaceL_id (old new l : List Char) (h : occursIn old l = false) :
    replaceL old new l = l := by
  induction l with
  | nil => simp [replaceL]
  | cons c r ih =>
    simp only [occursIn, Bool.or_eq_false_iff] at h
    rw [replaceL, if_neg (by simp [h.1]), ih h.2]

theorem reSubTable_at_lit (repl : String → String) (X cap rest : List Char)
    (hs : splitBrack X = some (cap, rest)) :
    reSubTable repl (tableLit ++ X) =
      (repl (String.mk cap)).toList ++ reSubTable repl rest := by
  show reSubTable repl ('b' :: ("itable::$table[".toList ++ X)) = _
  rw [reSubTable]
  have hp : tableLit.isPrefixOf ('b' :: ("itable::$table[".toList ++ X)) = true := by
    have he : ('b' :: ("itable::$table[".toList ++ X)) = tableLit ++ X := rfl
    rw [he]
    exact isPrefixOf_self_append _ _
  rw [if_pos hp]
  have hd : ('b' :: ("itable::$table[".toList ++ X)).drop tableLit.length = X := by
    have he : ('b' :: ("itable::$table[".toList ++ X)) = tableLit ++ X := rfl
    rw [he]
    exact List.drop_left _ _
  rw [hd, hs]

/-- C5: an expression containing a table-reference token whose identifier is
absent from the registry translates (through both scripts' `translate_formula`)
to text in which the token has become the bracketed deleted-table marker
embedding the literal original identifier — the token is never dropped.  The
hypotheses pin down a well-formed token (`]`/newline-free non-empty id) in a
context that contains no other reference-token or namespace-prefix
occurrences. -/
theorem C5_unresolved_marker (preL tidL postL : List Char) (ctid : String)
    (tm : List (String × String)) (fm : List ((String × String) × String))
    (h1 : tidL ≠ [])
    (h2 : ']' ∉ tidL) (h3 : '\n' ∉ tidL)
    (h4 : noMatchStartIn tableLit preL (tableLit ++ (tidL ++ ']' :: postL)))
    (h5 : occursIn tableLit postL = false)
    (h6 : occursIn fieldLit
      (preL ++ (("「[已删除的表:".toList ++ tidL ++ "]」".toList) ++ postL)) = false)
    (h7 : occursIn columnLit
      (preL ++ (("「[已删除的表:".toList ++ tidL ++ "]」".toList) ++ postL)) = false)
    (h8 : occursIn "bitable::".toList
      (preL ++ (("「[已删除的表:".toList ++ tidL ++ "]」".toList) ++ postL)) = false)
    (h9 : alistLookup (String.mk tidL) tm = Option.none) :
    Master.translate_formula (String.mk (preL ++ (tableLit ++ (tidL ++ ']' :: postL))))
        ctid tm fm
      = String.mk (preL ++ (("「[已删除的表:".toList ++ tidL ++ "]」".toList) ++ postL)) ∧
    Graph.translate_formula (String.mk (preL ++ (tableLit ++ (tidL ++ ']' :: postL))))
        ctid tm fm
      = String.mk (preL ++ (("「[已删除的表:".toList ++ tidL ++ "]」".toList) ++ postL)) ∧
    ("[已删除的表:" ++ String.mk tidL ++ "]").toList <:+:
      (String.mk (preL ++ (("「[已删除的表:".toList ++ tidL ++ "]」".toList) ++ postL))).toList := by
  have hne : String.mk (preL ++ (tableLit ++ (tidL ++ ']' :: postL))) ≠ "" := by
    intro hcon
    have := congrArg String.toList hcon
    simp [String.toList, tableLit] at this
  have hmarkM : Master.replace_table tm (String.mk tidL)
      = "「[已删除的表:" ++ String.mk tidL ++ "]」" := by
    simp [Master.replace_table, h9, Auto.truthyS]
  have hmarkG : "「" ++ Graph.get_table_name (String.mk tidL) tm ++ "」"
      = "「[已删除的表:" ++ String.mk tidL ++ "]」" := by
    have hmk : String.mk tidL ≠ "" := by
      intro hcon
      have := congrArg String.toList hcon
      simp [String.toList] at this
      exact h1 this
    simp only [Graph.get_table_name, if_neg hmk, h9, Auto.truthyS]
    apply String.ext
    simp [String.data_append]
  have hmarkL : ("「[已删除的表:" ++ String.mk tidL ++ "]」").toList
      = "「[已删除的表:".toList ++ tidL ++ "]」".toList := rfl
  have hscanM : reSubTable (Master.replace_table tm)
      (preL ++ (tableLit ++ (tidL ++ ']' :: postL)))
      = preL ++ (("「[已删除的表:".toList ++ tidL ++ "]」".toList) ++ postL) := by
    rw [reSubTable_append _ _ _ h4,
      reSubTable_at_lit _ _ _ _ (splitBrack_exact postL h2 h3),
      reSubTable_id _ _ h5, hmarkM, hmarkL, List.append_assoc]
  have hscanG : reSubTable (fun tid => "「" ++ Graph.get_table_name tid tm ++ "」")
      (preL ++ (tableLit ++ (tidL ++ ']' :: postL)))
      = preL ++ (("「[已删除的表:".toList ++ tidL ++ "]」".toList) ++ postL) := by
    rw [reSubTable_append _ _ _ h4,
      reSubTable_at_lit _ _ _ _ (splitBrack_exact postL h2 h3),
      reSubTable_id _ _ h5, hmarkG, hmarkL, List.append_assoc]
  refine ⟨?_, ?_, ?_⟩
  · unfold Master.translate_formula
    rw [if_neg hne]
    show String.mk (replaceL "bitable::".toList []
      (reSubField (Master.replace_field ctid fm)
        (reSubTable (Master.replace_table tm)
          (preL ++ (tableLit ++ (tidL ++ ']' :: postL)))))) = _
    rw [hscanM, reSubField_id _ _ h6 h7, replaceL_id _ _ _ h8]
  · unfold Graph.translate_formula
    rw [if_neg hne]
    show String.mk (replaceL "bitable::".toList []
      (reSubField (fun fid => "「" ++ Graph.get_field_name ctid fid fm ++ "」")
        (reSubTable (fun tid => "「" ++ Graph.get_table_name tid tm ++ "」")
          (preL ++ (tableLit ++ (tidL ++ ']' :: postL)))))) = _
    rw [hscanG, reSubField_id _ _ h6 h7, replaceL_id _ _ _ h8]
  · refine ⟨preL ++ ['「'], '」' :: postL, ?_⟩
    show (preL ++ ['「']) ++ ("[已删除的表:".toList ++ tidL ++ "]".toList) ++ ('」' :: postL)
      = preL ++ (("「[已删除的表:".toList ++ tidL ++ "]」".toList) ++ postL)
    simp [List.append_assoc]

/-- Witness for C5: translating `SUM(bitable::$table[tblZZZ])` with `tblZZZ`
absent from the registry yields the deleted-table marker embedding the id. -/
theorem C5_unresolved_marker_witness :
    Master.translate_formula
        (String.mk ("SUM(".toList ++ (tableLit ++ ("tblZZZ".toList ++ ']' :: ")".toList))))
        "t" [("tbl1", "表一")] []
      = String.mk ("SUM(".toList ++
          (("「[已删除的表:".toList ++ "tblZZZ".toList ++ "]」".toList) ++ ")".toList)) ∧
    Graph.translate_formula
        (String.mk ("SUM(".toList ++ (tableLit ++ ("tblZZZ".toList ++ ']' :: ")".toList))))
        "t" [("tbl1", "表一")] []
      = String.mk ("SUM(".toList ++
          (("「[已删除的表:".toList ++ "tblZZZ".toList ++ "]」".toList) ++ ")".toList)) ∧
    ("[已删除的表:" ++ String.mk "tblZZZ".toList ++ "]").toList <:+:
      (String.mk ("SUM(".toList ++
        (("「[已删除的表:".toList ++ "tblZZZ".toList ++ "]」".toList) ++ ")".toList))).toList :=
  C5_unresolved_marker "SUM(".toList "tblZZZ".toList ")".toList "t" [("tbl1", "表一")] []
    (by decide) (by decide) (by decide) (by decide) (by decide) (by decide)
    (by decide) (by decide) (by decide)

/-- `f"{m.get(x, x)}"` for a string-keyed translation table and an arbitrary
payload value: translate string keys, render anything else with `str`. -/
def strMapGet (m : List (String × String)) (v : PyVal) : String :=
  match v with
  | .str s => (alistLookup s m).getD s
  | v => pyStr v

/-- Python `s * n` (string repetition). -/
def pyRepeat (s : String) : Nat → String
  | 0 => ""
  | n + 1 => s ++ pyRepeat s n

namespace Auto

/-- The `attr_map` used for record attributes in `format_value` and
`parse_value_ref`. -/
def ATTR_MAP : List (String × String) := [("recordId", "记录ID"), ("record", "记录")]

/-- The scan of a `ref` value's `path` list inside `format_value`: the first
entry that is a `Field` pointer with a truthy value, or a `RecordAttr`
pointer, produces the field-name suffix. -/
def pathFieldDesc (wtm : List (String × WfMapEntry))
    (fm : List ((String × String) × String)) : List PyVal → String
  | [] => ""
  | p :: rest =>
    if pyEqStr (dget p "type") "Field" then
      let fid := dgetD p "value" (.str "")
      if pyTruthy fid then
        if ¬ fm.isEmpty then "的「" ++ resolve_field_id_v fid wtm fm ++ "」"
        else "的[未知字段:" ++ pyStr fid ++ "]"
      else pathFieldDesc wtm fm rest
    else if pyEqStr (dget p "type") "RecordAttr" then
      "的" ++ strMapGet ATTR_MAP (dgetD p "value" (.str ""))
    else pathFieldDesc wtm fm rest

/-- The `fields`-based field-name suffix of a `ref` value in `format_value`. -/
def fieldsDesc (fields : PyVal) (wtm : List (String × WfMapEntry))
    (fm : List ((String × String) × String)) : String :=
  match fields with
  | .list (field_info :: _) =>
    (match field_info with
     | .dict _ =>
       let field_id := dgetD field_info "fieldId" (.str "")
       if pyTruthy field_id then
         if ¬ fm.isEmpty then "的「" ++ resolve_field_id_v field_id wtm fm ++ "」"
         else "的[未知字段:" ++ pyStr field_id ++ "]"
       else ""
     | _ => "")
  | _ => ""

/-- The typed-reference branch of `format_value` (`value.get('type') == 'ref'`),
which performs no recursion into the value. -/
def format_ref (v : PyVal) (wtm : List (String × WfMapEntry))
    (fm : List ((String × String) × String)) : String :=
  let tag := dgetD v "tagType" (.str "未知")
  let step := dgetD v "stepNum" (.str "?")
  let fields := dgetD v "fields" (.list [])
  let fnd0 := fieldsDesc fields wtm fm
  let field_name_desc :=
    if fnd0 = "" then
      match dgetD v "path" (.list []) with
      | .list (p :: ps) => pathFieldDesc wtm fm (p :: ps)
      | _ => ""
    else fnd0
  if pyEqStr tag "formula" then
    "[公式计算: " ++ pyStr (dgetD v "title" (.str "未知")) ++ "]"
  else if pyEqStr tag "system" then
    "[系统变量:" ++
      strMapGet [("viewUrl", "视图链接"), ("recordUrl", "记录链接")]
        (dgetD v "systemType" (.str "unknown")) ++ "]"
  else if pyEqStr tag "RecordAttribute" then
    "[步骤" ++ pyStr step ++ "的" ++
      strMapGet ATTR_MAP (dgetD v "attribute" (.str "unknown")) ++ "]"
  else
    let tag_desc := strMapGet
      [("loop", "循环当前记录"), ("step", "结果"), ("trigger", "触发记录"),
       ("RecordAttribute", "记录属性")] tag
    if pyEqStr tag "loop" then
      if field_name_desc ≠ "" then "[步骤" ++ pyStr step ++ "循环" ++ field_name_desc ++ "]"
      else "[步骤" ++ pyStr step ++ "的循环当前记录]"
    else if field_name_desc ≠ "" then "[步骤" ++ pyStr step ++ field_name_desc ++ "]"
    else "[步骤" ++ pyStr step ++ "的" ++ tag_desc ++ "]"

/-- `format_value` (generate_自动化地图.py lines 428-541): format an arbitrary
payload value, translating option ids and recursing through lists and dicts;
`depth` only controls the indentation of multi-line list rendering. -/
def format_value (value : PyVal) (option_map : List (String × String)) (depth : Nat)
    (wtm : List (String × WfMapEntry))
    (fm : List ((String × String) × String)) : String :=
  match value with
  | .str "" => "[空值]"
  | .none => "[空]"
  | .str s =>
    if pyStartsWith s "opt" && !option_map.isEmpty then (alistLookup s option_map).getD s
    else s
  | .list [] => "[空列表]"
  | .list xs =>
    let formatted_items := xs.attach.map fun x =>
      format_value x.1 option_map (depth + 1) wtm fm
    if formatted_items.all (fun item => !item.toList.contains '\n' && item.length < 50) then
      pyJoin ", " formatted_items
    else
      let indent := pyRepeat "  " depth
      pyJoin "" (formatted_items.map fun item => "\n" ++ indent ++ "- " ++ item)
  | .dict [] => "{}"
  | .dict es =>
    if pyEqStr (dget (.dict es) "type") "ref" then format_ref (.dict es) wtm fm
    else
      "\x7b " ++ pyJoin ", " (es.attach.map fun e =>
        e.1.1 ++ ": " ++ format_value e.1.2 option_map (depth + 1) wtm fm) ++ " \x7d"
  | v => pyStr v
termination_by sizeOf value
decreasing_by
  · have := List.sizeOf_lt_of_mem x.2
    simp [PyVal.list.sizeOf_spec]
    omega
  · have h1 := List.sizeOf_lt_of_mem e.2
    have h2 : sizeOf e.1.2 < sizeOf e.1 := by
      obtain ⟨⟨k, v⟩, hv⟩ := e
      simp
    simp [PyVal.dict.sizeOf_spec]
    omega

end Auto

/-- An unboundedly nestable payload: `nestList n` is a list nested `n` deep
around the scalar `"x"`. -/
def nestList : Nat → PyVal
  | 0 => .str "x"
  | n + 1 => .list [nestList n]

/-- C7 (refuting the claimed ceiling): `format_value` has no hard depth
ceiling and emits no truncation marker — for every nesting depth `n`, the
innermost scalar of an `n`-deep nested list is still rendered in full in the
output, at every presentation depth; the `depth` parameter only selects
indentation.  (On a cyclic payload the Python source therefore recurses
without bound instead of returning a truncation marker.) -/
theorem C7_no_depth_ceiling (n depth : Nat) (om : List (String × String))
    (wtm : List (String × Auto.WfMapEntry)) (fm : List ((String × String) × String)) :
    "x".toList <:+: (Auto.format_value (nestList n) om depth wtm fm).toList := by
  induction n generalizing depth with
  | zero =>
    show "x".toList <:+: (Auto.format_value (.str "x") om depth wtm fm).toList
    have hfmt : Auto.format_value (.str "x") om depth wtm fm = "x" := by
      simp [Auto.format_value, pyStartsWith, List.isPrefixOf]
    rw [hfmt]
  | succ n ih =>
    show "x".toList <:+:
      (Auto.format_value (.list [nestList n]) om depth wtm fm).toList
    have hfmt : Auto.format_value (.list [nestList n]) om depth wtm fm =
        (let i := Auto.format_value (nestList n) om (depth + 1) wtm fm
         if [i].all (fun item => !item.toList.contains '\n' && item.length < 50) then
           pyJoin ", " [i]
         else pyJoin "" ([i].map fun item => "\n" ++ pyRepeat "  " depth ++ "- " ++ item)) := by
      rw [Auto.format_value]
      · simp [List.attach]
      · simp
    rw [hfmt]
    set i := Auto.format_value (nestList n) om (depth + 1) wtm fm with hi
    by_cases hall : ([i].all fun item => !item.toList.contains '\n' && item.length < 50) = true
    · simp only [hall, if_true]
      have : pyJoin ", " [i] = i := by simp [pyJoin]
      rw [this]
      exact ih (depth + 1)
    · simp only [Bool.not_eq_true] at hall
      simp only [hall, Bool.false_eq_true, if_false, List.map_cons, List.map_nil]
      have : pyJoin "" ["\n" ++ pyRepeat "  " depth ++ "- " ++ i]
          = "\n" ++ pyRepeat "  " depth ++ "- " ++ i := by simp [pyJoin]
      rw [this]
      refine (ih (depth + 1)).trans ?_
      exact ⟨("\n" ++ pyRepeat "  " depth ++ "- ").toList, [], by simp⟩

/-- Lookup in a dict keyed by arbitrary payload values (Python `d.get(k)`
with `==` key equality). -/
def alistLookupP {α : Type} (k : PyVal) : List (PyVal × α) → Option α
  | [] => Option.none
  | (k', v) :: rest => if pyEqb k' k then some v else alistLookupP k rest

/-- Assignment in a dict keyed by arbitrary payload values (keeps the first
inserted key and its position on overwrite, as Python does). -/
def alistInsertP {α : Type} (k : PyVal) (v : α) : List (PyVal × α) → List (PyVal × α)
  | [] => [(k, v)]
  | (k', v') :: rest => if pyEqb k' k then (k', v) :: rest else (k', v') :: alistInsertP k v rest

/-- Python `x in container` for the string `k`: key membership for dicts,
substring for strings, element equality for lists. -/
def pyHasKeyIn (k : String) (v : PyVal) : Bool :=
  match v with
  | .dict es => (alistLookup k es).isSome
  | .str s => occursIn k.toList s.toList
  | .list xs => xs.any fun x => pyEqb x (.str k)
  | _ => false

/-- Python `xs[0]` used after a truthiness check; non-list receivers (which
would raise) yield `None`. -/
def pyIdx0 : PyVal → PyVal
  | .list (x :: _) => x
  | _ => .none

/-- The values skipped by the generic fallback: `val in [None, {}, [], ""]`. -/
def emptyLike : PyVal → Bool
  | .none => true
  | .dict [] => true
  | .list [] => true
  | .str "" => true
  | _ => false

/-- Python string `<=` (code-point lexicographic) on character lists. -/
def charListLe : List Char → List Char → Bool
  | [], _ => true
  | _ :: _, [] => false
  | a :: as, b :: bs => if a = b then charListLe as bs else decide (a < b)

/-- Insertion into a sorted string list. -/
def insertSorted (s : String) : List String → List String
  | [] => [s]
  | t :: rest => if charListLe s.toList t.toList then s :: t :: rest else t :: insertSorted s rest

/-- Python `sorted` on a list of strings (code-point order). -/
def sortStrings : List String → List String
  | [] => []
  | s :: rest => insertSorted s (sortStrings rest)

theorem mem_insertSorted {x s : String} {l : List String} :
    x ∈ insertSorted s l ↔ x = s ∨ x ∈ l := by
  induction l with
  | nil => simp [insertSorted]
  | cons t rest ih =>
    simp only [insertSorted]
    by_cases hc : charListLe s.toList t.toList = true
    · rw [if_pos hc]
      simp
    · rw [if_neg hc]
      simp [ih]
      tauto

theorem mem_sortStrings {x : String} {l : List String} :
    x ∈ sortStrings l ↔ x ∈ l := by
  induction l with
  | nil => simp [sortStrings]
  | cons s rest ih => simp [sortStrings, mem_insertSorted, ih]

/-- Two-digit zero padding (`strftime` numeric fields). -/
def pad2 (n : Nat) : String := if n < 10 then "0" ++ toString n else toString n

/-- Four-digit zero padding for `%Y`. -/
def pad4 (y : Int) : String :=
  if y < 0 then toString y
  else
    let s := toString y.toNat
    pyRepeat "0" (4 - min 4 s.length) ++ s

/-- Proleptic-Gregorian civil date from days since 1970-01-01. -/
def civilFromDays (z0 : Int) : Int × Nat × Nat :=
  let z := z0 + 719468
  let era := Int.fdiv z 146097
  let doe := (z - era * 146097).toNat
  let yoe := (doe - doe / 1460 + doe / 36524 - doe / 146096) / 365
  let y := (yoe : Int) + era * 400
  let doy := doe - (365 * yoe + yoe / 4 - yoe / 100)
  let mp := (5 * doy + 2) / 153
  let d := doy - (153 * mp + 2) / 5 + 1
  let m := if mp < 10 then mp + 3 else mp - 9
  (if m ≤ 2 then y + 1 else y, m, d)

/-- `datetime.datetime.fromtimestamp(ms / 1000).strftime('%Y-%m-%d %H:%M')`,
modelled in UTC (the source renders in the machine's local timezone, which no
claim depends on). -/
def formatTsMinute (ms : Int) : String :=
  let s := Int.fdiv ms 1000
  let days := Int.fdiv s 86400
  let secs := (s - days * 86400).toNat
  let c := civilFromDays days
  pad4 c.1 ++ "-" ++ pad2 c.2.1 ++ "-" ++ pad2 c.2.2 ++ " " ++
    pad2 (secs / 3600) ++ ":" ++ pad2 (secs % 3600 / 60)

theorem sizeOf_alistLookup_lt {k : String} {es : List (String × PyVal)} {v : PyVal}
    (h : alistLookup k es = some v) : sizeOf v < sizeOf es := by
  induction es with
  | nil => simp [alistLookup] at h
  | cons e rest ih =>
    obtain ⟨k', v'⟩ := e
    by_cases hk : k' = k
    · simp [alistLookup, hk] at h
      subst h
      simp
      omega
    · simp [alistLookup, hk] at h
      have := ih h
      simp
      omega

theorem sizeOf_mem_pyItems_dget {v x : PyVal} {k : String}
    (hx : x ∈ pyItems (dgetD v k (.list []))) : sizeOf x < sizeOf v := by
  cases v with
  | dict es =>
    simp only [dgetD] at hx
    cases hl : alistLookup k es with
    | none => rw [hl] at hx; simp [pyItems] at hx
    | some w =>
      rw [hl] at hx
      simp only [Option.getD] at hx
      cases w with
      | list xs =>
        simp only [pyItems] at hx
        have h1 := List.sizeOf_lt_of_mem hx
        have h2 := sizeOf_alistLookup_lt hl
        simp [PyVal.dict.sizeOf_spec, PyVal.list.sizeOf_spec] at *
        omega
      | none => simp [pyItems] at hx
      | bool b => simp [pyItems] at hx
      | int n => simp [pyItems] at hx
      | str s => simp [pyItems] at hx
      | dict es2 => simp [pyItems] at hx
  | none => simp [dgetD, pyItems] at hx
  | bool b => simp [dgetD, pyItems] at hx
  | int n => simp [dgetD, pyItems] at hx
  | str s => simp [dgetD, pyItems] at hx
  | list xs => simp [dgetD, pyItems] at hx

namespace Auto

/-- The trigger-source translation table used by the trigger branches. -/
def TRIGGER_CONTROL_MAP : List (String × String) :=
  [("pasteUpdate", "粘贴更新"), ("automationBatchUpdate", "自动化批量更新"),
   ("appendImport", "追加导入"), ("openAPIBatchUpdate", "API批量更新")]

/-- Option-id translation applied to scalar condition values:
`option_map.get(v, v)` when `v` is a string starting with `opt`, else `str(v)`. -/
def condValStr (om : List (String × String)) (v : PyVal) : String :=
  match v with
  | .str s => if pyStartsWith s "opt" then (alistLookup s om).getD s else s
  | v => pyStr v

/-- `parse_condition` (generate_自动化地图.py lines 259-282). -/
def parse_condition (condition : PyVal) (wtm : List (String × WfMapEntry))
    (fm : List ((String × String) × String)) (om : List (String × String)) : String :=
  match condition with
  | .dict _ =>
    let field_id := dgetD condition "fieldId" (.str "")
    let operator := dgetD condition "operator" (.str "")
    let value :=
      let v := dget condition "value"
      if pyTruthy v then v else dget (dgetD condition "matchValue" (.dict [])) "value"
    let field_name := resolve_field_id_v field_id wtm fm
    let op_name := strMapGet OPERATORS operator
    let value_str := format_value value om 0 wtm fm
    if pyEqStr operator "is_empty" || pyEqStr operator "is_not_empty" then
      "「" ++ field_name ++ "」" ++ op_name
    else "「" ++ field_name ++ "」" ++ op_name ++ " \"" ++ value_str ++ "\""
  | _ => pyStr condition

/-- `parse_trigger_filter_condition` (lines 285-335): recursively renders a
trigger filter condition group. -/
def parse_trigger_filter_condition (condition_obj : PyVal)
    (wtm : List (String × WfMapEntry)) (fm : List ((String × String) × String))
    (om : List (String × String)) : String :=
  if ¬ pyTruthy condition_obj then ""
  else
    let conjunction := dgetD condition_obj "conjunction" (.str "and")
    let conditions := dgetD condition_obj "conditions" (.list [])
    if ¬ pyTruthy conditions then ""
    else
      let parsed_parts := (pyItems conditions).attach.flatMap fun c =>
        if pyHasKeyIn "conditions" c.1 then
          let nested := parse_trigger_filter_condition c.1 wtm fm om
          if nested ≠ "" then ["(" ++ nested ++ ")"] else []
        else
          let field_id := dgetD c.1 "fieldId" (.str "")
          let operator := dgetD c.1 "operator" (.str "")
          let value := dgetD c.1 "value" (.list [])
          let field_name := resolve_field_id_v field_id wtm fm
          let op_name := strMapGet OPERATORS operator
          let value_str :=
            match value with
            | .list vs =>
              let translated_vals := vs.map (condValStr om)
              if translated_vals ≠ [] then pyJoin ", " translated_vals else "[空]"
            | v => if pyTruthy v then pyStr v else "[空]"
          if pyEqStr operator "isEmpty" || pyEqStr operator "isNotEmpty" ||
              pyEqStr operator "is_empty" || pyEqStr operator "is_not_empty" then
            ["「" ++ field_name ++ "」" ++ op_name]
          else ["「" ++ field_name ++ "」" ++ op_name ++ " \"" ++ value_str ++ "\""]
      let connector := if pyEqStr conjunction "and" then " 且 " else " 或 "
      pyJoin connector parsed_parts
termination_by sizeOf condition_obj
decreasing_by
  have h1 : c.1 ∈ pyItems (dgetD condition_obj "conditions" (.list [])) := c.2
  exact sizeOf_mem_pyItems_dget h1

/-- `parse_conditions_list` (lines 339-349); the `conjunction` argument is
always left at its `"and"` default by the callers. -/
def parse_conditions_list (conditions : PyVal) (wtm : List (String × WfMapEntry))
    (fm : List ((String × String) × String)) (om : List (String × String))
    (conjunction : String) : String :=
  if ¬ pyTruthy conditions then "无条件"
  else
    let parsed := (pyItems conditions).map fun c => parse_condition c wtm fm om
    let connector := if conjunction = "and" then " 且 " else " 或 "
    pyJoin connector parsed

/-- `parse_value_ref` (lines 944-993). -/
def parse_value_ref (value_obj : PyVal) (wtm : List (String × WfMapEntry))
    (fm : List ((String × String) × String)) : String :=
  if ¬ pyTruthy value_obj then "未知"
  else
    match value_obj with
    | .str s => s
    | _ =>
      if pyEqStr (dget value_obj "type") "ref" &&
          pyEqStr (dget value_obj "tagType") "RecordAttribute" then
        let step_num := dgetD value_obj "stepNum" (.str "?")
        let attrV := dgetD value_obj "attribute" (.str "")
        let step_type := dgetD value_obj "stepType" (.str "")
        let attr_name := strMapGet
          [("recordNum", "记录数"), ("recordId", "记录ID"), ("record", "记录"),
           ("value", "值")] attrV
        let step_type_name := strMapGet
          [("FindRecordAction", "查找记录"), ("AddRecordAction", "新增记录")] step_type
        "[步骤" ++ pyStr step_num ++ "(" ++ step_type_name ++ ")的" ++ attr_name ++ "]"
      else if pyEqStr (dget value_obj "type") "ref" &&
          pyEqStr (dget value_obj "tagType") "step" then
        let step_num := dgetD value_obj "stepNum" (.str "?")
        let fields := dgetD value_obj "fields" (.list [])
        if pyTruthy fields then
          let field_id := dgetD (pyIdx0 fields) "fieldId" (.str "")
          "[步骤" ++ pyStr step_num ++ "的「" ++ resolve_field_id_v field_id wtm fm ++ "」]"
        else "[步骤" ++ pyStr step_num ++ "的结果]"
      else
        let fields := dgetD value_obj "fields" (.list [])
        if pyTruthy fields then
          let field_id := dgetD (pyIdx0 fields) "fieldId" (.str "")
          "「" ++ resolve_field_id_v field_id wtm fm ++ "」"
        else pyStr value_obj

/-- `parse_right_value` (lines 996-1011). -/
def parse_right_value (right_value : PyVal) : String :=
  if ¬ pyTruthy right_value then ""
  else
    match right_value with
    | .list xs =>
      pyJoin ", " (xs.map fun item =>
        match item with
        | .dict _ => pyStr (dgetD item "text" (dgetD item "value" (.str (pyStr item))))
        | v => pyStr v)
    | v => pyStr v

/-- `parse_if_else_condition` (lines 903-941): recursively renders an
`IfElseBranch` condition group. -/
def parse_if_else_condition (condition_obj : PyVal)
    (wtm : List (String × WfMapEntry)) (fm : List ((String × String) × String))
    (om : List (String × String)) : String :=
  if ¬ pyTruthy condition_obj then "无条件"
  else
    let conjunction := dgetD condition_obj "conjunction" (.str "And")
    let conditions := dgetD condition_obj "conditions" (.list [])
    if ¬ pyTruthy conditions then "无条件"
    else
      let parsed := (pyItems conditions).attach.map fun c =>
        if pyHasKeyIn "conditions" c.1 then
          "(" ++ parse_if_else_condition c.1 wtm fm om ++ ")"
        else
          let left := dgetD c.1 "leftValue" (.dict [])
          let op := dgetD c.1 "operator" (.str "")
          let right := dgetD c.1 "rightValue" (.list [])
          let left_desc := parse_value_ref left wtm fm
          let op_desc := strMapGet OPERATORS op
          let right_desc := parse_right_value right
          if pyEqStr op "isEmpty" || pyEqStr op "isNotEmpty" then
            left_desc ++ " " ++ op_desc
          else left_desc ++ " " ++ op_desc ++ " \"" ++ right_desc ++ "\""
      let connector :=
        if (match conjunction with
            | .str s => pyLower s == "or"
            | _ => false) then " 或 " else " 且 "
      pyJoin connector parsed
termination_by sizeOf condition_obj
decreasing_by
  have h1 : c.1 ∈ pyItems (dgetD condition_obj "conditions" (.list [])) := c.2
  exact sizeOf_mem_pyItems_dget h1

/-- `parse_field_values` (lines 352-425): the field-value assignment lines of
record-writing actions. -/
def parse_field_values (values : PyVal) (wtm : List (String × WfMapEntry))
    (fm : List ((String × String) × String)) (om : List (String × String)) : List String :=
  if ¬ pyTruthy values then []
  else
    (pyItems values).flatMap fun v =>
      match v with
      | .dict _ =>
        let field_id := dgetD v "fieldId" (.str "")
        let field_name := resolve_field_id_v field_id wtm fm
        let value := dgetD v "value" (.str "")
        let value_str :=
          match value with
          | .list vs =>
            match vs.head? with
            | some v0 =>
              (match v0 with
               | .dict _ =>
                 if pyEqStr (dget v0 "type") "ref" && pyEqStr (dget v0 "tagType") "formula" then
                   "[公式计算: " ++ pyStr (dgetD v0 "title" (.str "未知")) ++ "]"
                 else if pyEqStr (dget v0 "type") "ref" &&
                     pyEqStr (dget v0 "tagType") "step" then
                   let step_num := dgetD v0 "stepNum" (.str "?")
                   let ref_fields := dgetD v0 "fields" (.list [])
                   (match ref_fields with
                    | .list (rf0 :: _) =>
                      let ref_field_id :=
                        match rf0 with
                        | .dict _ => dgetD rf0 "fieldId" (.str "")
                        | _ => .str ""
                      if pyTruthy ref_field_id then
                        "[步骤" ++ pyStr step_num ++ "的「" ++
                          resolve_field_id_v ref_field_id wtm fm ++ "」]"
                      else "[步骤" ++ pyStr step_num ++ "的结果]"
                    | _ => "[步骤" ++ pyStr step_num ++ "的结果]")
                 else if pyEqStr (dget v0 "type") "ref" &&
                     pyEqStr (dget v0 "tagType") "loop" then
                   let step_num := dgetD v0 "stepNum" (.str "?")
                   let ref_fields := dgetD v0 "fields" (.list [])
                   (match ref_fields with
                    | .list (rf0 :: _) =>
                      let ref_field_id :=
                        match rf0 with
                        | .dict _ => dgetD rf0 "fieldId" (.str "")
                        | _ => .str ""
                      if pyTruthy ref_field_id then
                        "[步骤" ++ pyStr step_num ++ "循环的「" ++
                          resolve_field_id_v ref_field_id wtm fm ++ "」]"
                      else "[步骤" ++ pyStr step_num ++ "的循环当前记录]"
                    | _ => "[步骤" ++ pyStr step_num ++ "的循环当前记录]")
                 else pyStr value
               | _ =>
                 let translated := vs.map fun item =>
                   match item with
                   | .str s =>
                     if pyStartsWith s "opt" then
                       match truthyS (alistLookup s om) with
                       | some opt_name => opt_name
                       | Option.none => s
                     else s
                   | item => pyStr item
                 if translated ≠ [] then pyJoin ", " translated else pyStr value)
            | Option.none => pyStr value
          | .str s => if pyStartsWith s "opt" then (alistLookup s om).getD s else s
          | .dict _ => pyStr value
          | v' => if pyTruthy v' then pyStr v' else "[空]"
        ["- 「" ++ field_name ++ "」= " ++ value_str]
      | _ => []

end Auto

namespace Auto

/-- Keys of a dict payload (non-dicts have none). -/
def pyKeys : PyVal → List String
  | .dict es => es.map (·.1)
  | _ => []

/-- Rendering of `step_id_map.get(k, '?')` inside an f-string: the mapped
1-based sequence number, or the `'?'` unknown marker when absent. -/
def stepNumRender (sim : List (PyVal × Nat)) (k : PyVal) : String :=
  match alistLookupP k sim with
  | some n => toString n
  | _ => "?"

/-- One iteration of the step-id-map loop of `parse_workflow`
(generate_自动化地图.py lines 1084-1086): `if step.get('id'):
step_id_map[step.get('id')] = i + 1`. -/
def simStepF (acc : List (PyVal × Nat)) (p : Nat × PyVal) : List (PyVal × Nat) :=
  if pyTruthy (dget p.2 "id") then alistInsertP (dget p.2 "id") (p.1 + 1) acc else acc

/-- The step-id → 1-based-index map built by `parse_workflow`
(generate_自动化地图.py lines 1083-1086). -/
def build_step_id_map (steps : List PyVal) : List (PyVal × Nat) :=
  steps.enum.foldl simStepF []

/-- Python `s[:n] + "..."` truncation applied when `len(s) > n`. -/
def truncAt (n : Nat) (s : String) : String :=
  if s.length > n then String.mk (s.toList.take n) ++ "..." else s

/-- The keys marked processed by `parse_step`'s type-specific branches
(each `processed_keys.add` in the source, in order). -/
def processedKeys (step_type data : PyVal) : List String :=
  (if pyTruthy (dget data "tableId") then ["tableId"] else []) ++
  (if pyEqStr step_type "ChangeRecordTrigger" then ["fields", "triggerControlList"] else []) ++
  (if pyEqStr step_type "AddRecordTrigger" then ["triggerControlList", "watchedFieldId"] else []) ++
  (if pyEqStr step_type "SetRecordTrigger" then ["fields", "fieldIds", "filterInfo"] else []) ++
  (if pyEqStr step_type "TimerTrigger" then ["rule", "startTime"] else []) ++
  (if pyEqStr step_type "FindRecordAction" || pyEqStr step_type "FindRecord" then
    ["recordInfo", "fieldsMap", "fieldIds", "recordType", "shouldProceedWithNoResults"] else []) ++
  (if pyEqStr step_type "ButtonTrigger" then ["buttonType"] else []) ++
  (if pyEqStr step_type "AddRecordAction" || pyEqStr step_type "AddRecord" then ["values"] else []) ++
  (if pyEqStr step_type "SetRecordAction" || pyEqStr step_type "UpdateRecordAction" ||
      pyEqStr step_type "UpdateRecord" then
    ["recordType", "recordInfo", "maxSetRecordNum", "values"] else []) ++
  (if pyEqStr step_type "Loop" then
    ["loopType", "loopData", "maxLoopTimes", "loopMode", "startChildStepId"] else []) ++
  (if pyEqStr step_type "IfElseBranch" then
    ["condition", "meetConditionStepId", "notMeetConditionStepId"] else []) ++
  (if pyEqStr step_type "CustomAction" then
    ["packId", "formData", "version", "endpointId", "resultTypeInfo", "packType"] else [])

/-- Lines 561-565: the `涉及表` line. -/
def tableSeg (indent : String) (data : PyVal) (wtm : List (String × WfMapEntry))
    (tm : List (String × String)) : List String :=
  let table_id := dget data "tableId"
  if pyTruthy table_id then
    [indent ++ "  - 涉及表: 「" ++ resolve_table_id_v table_id wtm tm ++ "」"]
  else []

/-- Lines 600-610 and 624-632: the `触发来源` line shared by the two triggers. -/
def triggerSourceLines (indent : String) (data : PyVal) : List String :=
  let trigger_list := dgetD data "triggerControlList" (.list [])
  if pyTruthy trigger_list then
    [indent ++ "  - 触发来源: " ++
      pyJoin ", " ((pyItems trigger_list).map (strMapGet TRIGGER_CONTROL_MAP))]
  else []

/-- Lines 570-610: the ChangeRecordTrigger branch. -/
def changeTrigSeg (indent : String) (step_type data : PyVal)
    (wtm : List (String × WfMapEntry)) (fm : List ((String × String) × String))
    (om : List (String × String)) : List String :=
  if pyEqStr step_type "ChangeRecordTrigger" then
    let fields := dgetD data "fields" (.list [])
    (if pyTruthy fields then
      let cond_parts := (pyItems fields).map fun f =>
        let fname := resolve_field_id_v (dgetD f "fieldId" (.str "")) wtm fm
        let op := dgetD f "operator" (.str "")
        let value := dgetD f "value" (.list [])
        let op_name := strMapGet OPERATORS op
        if pyEqStr op "isEmpty" || pyEqStr op "isNotEmpty" then
          "「" ++ fname ++ "」" ++ op_name
        else
          let val_str0 :=
            match value with
            | .list vs => pyJoin ", " (vs.map (condValStr om))
            | v => condValStr om v
          let val_str := if val_str0 = "" then "[空值]" else val_str0
          "「" ++ fname ++ "」" ++ op_name ++ " \"" ++ val_str ++ "\""
      [indent ++ "  - 触发条件: " ++ pyJoin " 且 " cond_parts]
    else []) ++ triggerSourceLines indent data
  else []

/-- Lines 613-632: the AddRecordTrigger branch. -/
def addTrigSeg (indent : String) (step_type data : PyVal)
    (wtm : List (String × WfMapEntry)) (fm : List ((String × String) × String)) : List String :=
  if pyEqStr step_type "AddRecordTrigger" then
    let watched := dget data "watchedFieldId"
    (if pyTruthy watched then
      [indent ++ "  - 监听字段: 「" ++ resolve_field_id_v watched wtm fm ++ "」"]
    else []) ++ triggerSourceLines indent data
  else []

/-- Lines 636-644: the generic `next[0].condition` trigger-filter rendering. -/
def nextCondSeg (indent : String) (step : PyVal) (wtm : List (String × WfMapEntry))
    (fm : List ((String × String) × String)) (om : List (String × String)) : List String :=
  match dgetD step "next" (.list []) with
  | .list (first_next :: _) =>
    match first_next with
    | .dict _ =>
      let next_condition := dget first_next "condition"
      if pyTruthy next_condition then
        match next_condition with
        | .dict _ =>
          let cond_desc := parse_trigger_filter_condition next_condition wtm fm om
          if cond_desc ≠ "" then
            [indent ++ "  - **触发筛选条件**: " ++ cond_desc]
          else []
        | _ => []
      else []
    | _ => []
  | _ => []

/-- Lines 647-659: the SetRecordTrigger branch. -/
def setTrigSeg (indent : String) (step_type data : PyVal)
    (wtm : List (String × WfMapEntry)) (fm : List ((String × String) × String)) : List String :=
  if pyEqStr step_type "SetRecordTrigger" then
    let fields := dgetD data "fields" (.list [])
    (if pyTruthy fields then
      let field_names := (pyItems fields).map fun f =>
        resolve_field_id_v (dgetD f "fieldId" (.str "")) wtm fm
      [indent ++ "  - 监听字段: " ++
        pyJoin ", " (field_names.map fun n => "「" ++ n ++ "」")]
    else []) ++
    (let field_ids := dgetD data "fieldIds" (.list [])
     if pyTruthy field_ids then
      let field_names := (pyItems field_ids).map fun fid => resolve_field_id_v fid wtm fm
      [indent ++ "  - 监听字段(ID): " ++
        pyJoin ", " (field_names.map fun n => "「" ++ n ++ "」")]
     else [])
  else []

/-- Lines 662-674: the TimerTrigger branch (timestamps rendered in UTC; the
`try/except: pass` on a non-numeric timestamp yields no line). -/
def timerSeg (indent : String) (step_type data : PyVal) : List String :=
  if pyEqStr step_type "TimerTrigger" then
    let rule := dgetD data "rule" (.str "")
    let start_time := dget data "startTime"
    (if pyTruthy start_time then
      match start_time with
      | .int ms => [indent ++ "  - 开始时间: " ++ formatTsMinute ms]
      | _ => []
    else []) ++
    [indent ++ "  - 重复规则: " ++
      strMapGet [("MONTHLY", "每月"), ("WEEKLY", "每周"), ("DAILY", "每天"),
                 ("HOURLY", "每小时")] rule]
  else []

end Auto

namespace Auto

/-- Lines 677-710: the FindRecordAction / FindRecord branch. -/
def findSeg (indent : String) (step_type data : PyVal) (wtm : List (String × WfMapEntry))
    (fm : List ((String × String) × String)) (om : List (String × String))
    (sim : List (PyVal × Nat)) : List String :=
  if pyEqStr step_type "FindRecordAction" || pyEqStr step_type "FindRecord" then
    let record_info := dgetD data "recordInfo" (.dict [])
    let field_ids := dget data "fieldIds"
    (if pyTruthy field_ids then
      let field_names := (pyItems field_ids).map fun fid => resolve_field_id_v fid wtm fm
      [indent ++ "  - 返回字段: " ++
        pyJoin ", " (field_names.map fun n => "「" ++ n ++ "」")]
    else []) ++
    (let record_type := dget data "recordType"
     if pyEqStr record_type "Ref" &&
        (match record_info with | .dict _ => true | _ => false) then
      [indent ++ "  - 查找方式: 基于步骤" ++ stepNumRender sim (dget record_info "stepId") ++
        "返回的记录进行筛选"]
     else
      match record_info with
      | .dict _ =>
        let conditions := dgetD record_info "conditions" (.list [])
        if pyTruthy conditions then
          [indent ++ "  - 查找条件: " ++ parse_conditions_list conditions wtm fm om "and"]
        else [indent ++ "  - 查找条件: 无（返回所有记录）"]
      | _ => []) ++
    (if pyTruthy (dgetD data "shouldProceedWithNoResults" (.bool false)) then
      [indent ++ "  - 无结果时: 继续执行"]
     else [])
  else []

/-- Lines 713-717: the ButtonTrigger branch. -/
def buttonSeg (indent : String) (step_type data : PyVal) : List String :=
  if pyEqStr step_type "ButtonTrigger" then
    [indent ++ "  - 按钮类型: " ++
      strMapGet [("buttonField", "字段按钮触发"), ("recordMenu", "记录菜单触发")]
        (dget data "buttonType")]
  else []

/-- Lines 727-732 and 753-760: the `设置字段` block shared by the record-writing
actions. -/
def valuesLines (indent : String) (data : PyVal) (wtm : List (String × WfMapEntry))
    (fm : List ((String × String) × String)) (om : List (String × String)) : List String :=
  let values := dgetD data "values" (.list [])
  if pyTruthy values then
    let field_values := parse_field_values values wtm fm om
    if field_values ≠ [] then
      (indent ++ "  - 设置字段:") :: field_values.map fun fv => indent ++ "    " ++ fv
    else []
  else []

/-- Lines 724-732: the AddRecordAction / AddRecord branch. -/
def addActSeg (indent : String) (step_type data : PyVal) (wtm : List (String × WfMapEntry))
    (fm : List ((String × String) × String)) (om : List (String × String)) : List String :=
  if pyEqStr step_type "AddRecordAction" || pyEqStr step_type "AddRecord" then
    valuesLines indent data wtm fm om
  else []

/-- Lines 735-760: the SetRecordAction / UpdateRecordAction / UpdateRecord branch. -/
def updActSeg (indent : String) (step_type data : PyVal) (wtm : List (String × WfMapEntry))
    (fm : List ((String × String) × String)) (om : List (String × String)) : List String :=
  if pyEqStr step_type "SetRecordAction" || pyEqStr step_type "UpdateRecordAction" ||
      pyEqStr step_type "UpdateRecord" then
    let record_type := dgetD data "recordType" (.str "")
    let record_info := dgetD data "recordInfo" (.dict [])
    let isDict := match record_info with | .dict _ => true | _ => false
    (if pyEqStr record_type "stepRecord" || (isDict && pyEqStr (dget record_info "type") "ref") then
      let step_num := if isDict then dgetD record_info "stepNum" (.str "?") else .str "?"
      [indent ++ "  - 修改对象: [步骤" ++ pyStr step_num ++ "找到的记录]"]
     else if isDict && pyTruthy (dget record_info "conditions") then
      [indent ++ "  - 修改条件: " ++
        parse_conditions_list (dgetD record_info "conditions" (.list [])) wtm fm om "and"]
     else []) ++ valuesLines indent data wtm fm om
  else []

/-- Lines 763-787: the Loop branch. -/
def loopSeg (indent : String) (step_type data : PyVal) (sim : List (PyVal × Nat)) :
    List String :=
  if pyEqStr step_type "Loop" then
    let loop_type := dgetD data "loopType" (.str "")
    let loop_data := dgetD data "loopData" (.dict [])
    let max_times := dgetD data "maxLoopTimes" (.int 0)
    let start_child_id := dget data "startChildStepId"
    [indent ++ "  - 循环类型: " ++
      strMapGet [("forEach", "遍历每条记录"), ("times", "固定次数")] loop_type] ++
    (if (match loop_data with | .dict _ => true | _ => false) &&
        pyEqStr (dget loop_data "type") "ref" then
      [indent ++ "  - 循环数据: [步骤" ++ pyStr (dgetD loop_data "stepNum" (.str "?")) ++
        "找到的记录]"]
     else []) ++
    (if pyTruthy max_times then
      [indent ++ "  - 最大循环次数: " ++ pyStr max_times]
     else []) ++
    (if pyTruthy start_child_id then
      [indent ++ "  - 循环体开始: 跳转至步骤 " ++ stepNumRender sim start_child_id]
     else [])
  else []

/-- Lines 790-814: the IfElseBranch branch. -/
def ifElseSeg (indent : String) (step_type data : PyVal) (wtm : List (String × WfMapEntry))
    (fm : List ((String × String) × String)) (om : List (String × String))
    (sim : List (PyVal × Nat)) : List String :=
  if pyEqStr step_type "IfElseBranch" then
    let condition_obj := dgetD data "condition" (.dict [])
    let meet_id := dget data "meetConditionStepId"
    let not_meet_id := dget data "notMeetConditionStepId"
    (if pyTruthy condition_obj then
      [indent ++ "  - **判断条件**: " ++ parse_if_else_condition condition_obj wtm fm om]
     else []) ++
    (if pyTruthy meet_id then
      [indent ++ "  - ✅ 满足时: 跳转至步骤 " ++ stepNumRender sim meet_id]
     else [indent ++ "  - ✅ 满足时: 继续执行"]) ++
    (if pyTruthy not_meet_id then
      [indent ++ "  - ❌ 不满足: 跳转至步骤 " ++ stepNumRender sim not_meet_id]
     else [indent ++ "  - ❌ 不满足: (无动作)"])
  else []

/-- Lines 817-867: the CustomAction branch. -/
def customSeg (indent : String) (step_type data : PyVal) (wtm : List (String × WfMapEntry))
    (fm : List ((String × String) × String)) (om : List (String × String)) : List String :=
  if pyEqStr step_type "CustomAction" then
    let pack_id := dgetD data "packId" (.str "")
    let form_data := dgetD data "formData" (.dict [])
    [indent ++ "  - 动作类型: 自定义动作 (packId: " ++ pyStr pack_id ++ ")"] ++
    (if pyTruthy form_data then
      (indent ++ "  - 配置详情:") ::
      (match form_data with
       | .list items =>
         items.enum.flatMap fun p =>
           match p.2 with
           | .dict _ =>
             let label := dgetD p.2 "label"
               (dgetD p.2 "key" (.str ("配置" ++ toString (p.1 + 1))))
             let val := dgetD p.2 "value" (.str "")
             let val_text :=
               match val with
               | .list vs =>
                 String.join (vs.map fun v =>
                   match v with
                   | .dict _ =>
                     if dhasKey v "text" then pyStr (dget v "text")
                     else format_value v om 0 wtm fm
                   | v => pyStr v)
               | v => format_value v om 0 wtm fm
             [indent ++ "    - " ++ pyStr label ++ ": " ++ val_text]
           | _ => []
       | _ => [indent ++ "    " ++ truncAt 500 (pyStr form_data)])
     else [])
  else []

/-- `set(keys)`: deduplication of the payload's key list (Python dict keys are
unique, so this is the identity on faithful payloads). -/
def dedupStr : List String → List String
  | [] => []
  | k :: rest => k :: (dedupStr rest).filter (· ≠ k)

/-- Lines 874-898: the fallback loop body for one unprocessed key. -/
def fallbackEntry (indent : String) (k : String) (val : PyVal)
    (wtm : List (String × WfMapEntry)) (fm : List ((String × String) × String))
    (om : List (String × String)) : List String :=
  if emptyLike val then []
  else
    let val_fmt0 := format_value val om 0 wtm fm
    let resolved_names :=
      match val with
      | .list vs =>
        vs.flatMap fun v =>
          match v with
          | .str s =>
            if occursIn "fld".toList s.toList then
              let fname := resolve_field_id s wtm fm
              if fname ≠ s then [fname] else []
            else []
          | _ => []
      | .str s =>
        if occursIn "fld".toList s.toList then
          let fname := resolve_field_id s wtm fm
          if fname ≠ s then [fname] else []
        else []
      | _ => []
    let val_fmt1 :=
      if resolved_names ≠ [] then
        val_fmt0 ++ " (解析: " ++ pyJoin ", " resolved_names ++ ")"
      else val_fmt0
    [indent ++ "    - " ++ k ++ ": " ++ truncAt 300 val_fmt1]

/-- Lines 869-898: the generic fallback over unprocessed payload keys. -/
def fallbackSeg (indent : String) (step_type data : PyVal)
    (wtm : List (String × WfMapEntry)) (fm : List ((String × String) × String))
    (om : List (String × String)) : List String :=
  let remaining := sortStrings
    ((dedupStr (pyKeys data)).filter fun k => ¬ k ∈ processedKeys step_type data)
  if remaining ≠ [] then
    (indent ++ "  - 其他配置:") ::
    remaining.flatMap fun k => fallbackEntry indent k (dget data k) wtm fm om
  else []

/-- `parse_step` (lines 544-900), assembled from the branch segments in source
order. -/
def parse_step (step : PyVal) (wtm : List (String × WfMapEntry))
    (tm : List (String × String)) (fm : List ((String × String) × String))
    (om : List (String × String)) (sim : List (PyVal × Nat))
    (step_index : Nat) (depth : Nat) : List String :=
  let indent := pyRepeat "  " depth
  let step_type := dgetD step "type" (.str "未知类型")
  let step_title :=
    let st := dget step "stepTitle"
    if pyTruthy st then pyStr st else strMapGet ACTION_TYPES step_type
  let data := dgetD step "data" (.dict [])
  let idx_str := if step_index > 0 then " " ++ toString step_index else ""
  (indent ++ "- **步骤" ++ idx_str ++ ": " ++ step_title ++ "**") ::
  tableSeg indent data wtm tm ++
  changeTrigSeg indent step_type data wtm fm om ++
  addTrigSeg indent step_type data wtm fm ++
  nextCondSeg indent step wtm fm om ++
  setTrigSeg indent step_type data wtm fm ++
  timerSeg indent step_type data ++
  findSeg indent step_type data wtm fm om sim ++
  buttonSeg indent step_type data ++
  addActSeg indent step_type data wtm fm om ++
  updActSeg indent step_type data wtm fm om ++
  loopSeg indent step_type data sim ++
  ifElseSeg indent step_type data wtm fm om sim ++
  customSeg indent step_type data wtm fm om ++
  fallbackSeg indent step_type data wtm fm om

end Auto

theorem pyEqb_str_iff {v : PyVal} {s : String} : pyEqb v (.str s) = true ↔ v = .str s := by
  cases v <;> simp [pyEqb]

theorem str_pyEqb_iff {v : PyVal} {s : String} : pyEqb (.str s) v = true ↔ v = .str s := by
  cases v <;> simp [pyEqb] <;> exact eq_comm

theorem lookupP_insertP_self_str {α : Type} (s : String) (v : α) (m : List (PyVal × α)) :
    alistLookupP (.str s) (alistInsertP (.str s) v m) = some v := by
  induction m with
  | nil => simp [alistInsertP, alistLookupP, pyEqb]
  | cons e rest ih =>
    obtain ⟨k', v'⟩ := e
    simp only [alistInsertP]
    by_cases hk : pyEqb k' (.str s) = true
    · have hk' := pyEqb_str_iff.mp hk
      subst hk'
      simp [alistLookupP, pyEqb]
    · simp only [Bool.not_eq_true] at hk
      simp [hk, alistLookupP, ih]

theorem lookupP_insertP_other {α : Type} {k2 : PyVal} {s : String}
    (h : pyEqb k2 (.str s) = false) (v : α) (m : List (PyVal × α)) :
    alistLookupP (.str s) (alistInsertP k2 v m) = alistLookupP (.str s) m := by
  induction m with
  | nil => simp [alistInsertP, alistLookupP, h]
  | cons e rest ih =>
    obtain ⟨k', v'⟩ := e
    simp only [alistInsertP]
    by_cases hk : pyEqb k' k2 = true
    · have hks : pyEqb k' (.str s) = false := by
        by_contra hc
        have h1 : k' = .str s := pyEqb_str_iff.mp (by
          cases hx : pyEqb k' (.str s) with
          | true => rfl
          | false => exact absurd hx hc)
        subst h1
        have h2 : k2 = .str s := str_pyEqb_iff.mp hk
        subst h2
        simp [pyEqb] at h
      simp [hk, alistLookupP, hks]
    · simp only [Bool.not_eq_true] at hk
      by_cases hks : pyEqb k' (.str s) = true
      · simp [hk, alistLookupP, hks]
      · simp only [Bool.not_eq_true] at hks
        simp [hk, alistLookupP, hks, ih]

theorem sim_fold_skip {s : String} :
    ∀ (post : List PyVal) (n : Nat) (acc : List (PyVal × Nat)),
    (∀ t ∈ post, pyEqb (dget t "id") (.str s) = false) →
    alistLookupP (.str s) ((List.enumFrom n post).foldl Auto.simStepF acc) =
      alistLookupP (.str s) acc := by
  intro post
  induction post with
  | nil => intro n acc _; rfl
  | cons t ts ih =>
    intro n acc h
    simp only [List.enumFrom, List.foldl_cons]
    rw [ih (n + 1) _ (fun u hu => h u (List.mem_cons_of_mem _ hu))]
    unfold Auto.simStepF
    by_cases ht : pyTruthy (dget t "id") = true
    · simp only [ht, if_true]
      exact lookupP_insertP_other (h t (List.mem_cons_self _ _)) _ _
    · simp only [Bool.not_eq_true] at ht
      simp [ht]

theorem sim_fold_find {s : String} (hs : s ≠ "") :
    ∀ (pre : List PyVal) (x : PyVal) (post : List PyVal) (n : Nat)
      (acc : List (PyVal × Nat)),
    dget x "id" = .str s →
    (∀ t ∈ post, pyEqb (dget t "id") (.str s) = false) →
    alistLookupP (.str s) ((List.enumFrom n (pre ++ x :: post)).foldl Auto.simStepF acc) =
      some (n + pre.length + 1) := by
  intro pre
  induction pre with
  | nil =>
    intro x post n acc hx hpost
    simp only [List.nil_append, List.enumFrom, List.foldl_cons]
    rw [sim_fold_skip post (n + 1) _ hpost]
    unfold Auto.simStepF
    rw [hx]
    have ht : pyTruthy (PyVal.str s) = true := by simp [pyTruthy, hs]
    simp only [ht, if_true]
    rw [lookupP_insertP_self_str]
    simp
  | cons p ps ih =>
    intro x post n acc hx hpost
    simp only [List.cons_append, List.enumFrom, List.foldl_cons, List.append_eq]
    rw [ih x post (n + 1) _ hx hpost]
    simp only [List.length_cons, Option.some.injEq]
    omega

/-- C6: branch ("meet"/"not-meet") and loop ("loop-body-start") successor ids
are translated through the step-index map built by `parse_workflow` into
1-based sequence positions (the step at 0-based position `i` of the ordered
step list registers position `i + 1`), and the rendered jump lines cite
`stepNumRender`, which yields the mapped number when the id is present and the
explicit `"?"` unknown marker when it is absent. -/
theorem C6_step_jump_numbering :
    (∀ (pre : List PyVal) (x : PyVal) (post : List PyVal) (s : String),
      dget x "id" = PyVal.str s → s ≠ "" →
      (∀ t ∈ post, pyEqb (dget t "id") (PyVal.str s) = false) →
      alistLookupP (PyVal.str s) (Auto.build_step_id_map (pre ++ x :: post)) =
        some (pre.length + 1)) ∧
    (∀ (step : PyVal) (wtm : List (String × Auto.WfMapEntry))
        (tm : List (String × String)) (fm : List ((String × String) × String))
        (om : List (String × String)) (sim : List (PyVal × Nat)) (si depth : Nat),
      pyEqStr (dgetD step "type" (PyVal.str "未知类型")) "IfElseBranch" = true →
      pyTruthy (dget (dgetD step "data" (PyVal.dict [])) "meetConditionStepId") = true →
      (pyRepeat "  " depth ++ "  - ✅ 满足时: 跳转至步骤 " ++
        Auto.stepNumRender sim (dget (dgetD step "data" (PyVal.dict [])) "meetConditionStepId"))
        ∈ Auto.parse_step step wtm tm fm om sim si depth) ∧
    (∀ (step : PyVal) (wtm : List (String × Auto.WfMapEntry))
        (tm : List (String × String)) (fm : List ((String × String) × String))
        (om : List (String × String)) (sim : List (PyVal × Nat)) (si depth : Nat),
      pyEqStr (dgetD step "type" (PyVal.str "未知类型")) "IfElseBranch" = true →
      pyTruthy (dget (dgetD step "data" (PyVal.dict [])) "notMeetConditionStepId") = true →
      (pyRepeat "  " depth ++ "  - ❌ 不满足: 跳转至步骤 " ++
        Auto.stepNumRender sim (dget (dgetD step "data" (PyVal.dict [])) "notMeetConditionStepId"))
        ∈ Auto.parse_step step wtm tm fm om sim si depth) ∧
    (∀ (step : PyVal) (wtm : List (String × Auto.WfMapEntry))
        (tm : List (String × String)) (fm : List ((String × String) × String))
        (om : List (String × String)) (sim : List (PyVal × Nat)) (si depth : Nat),
      pyEqStr (dgetD step "type" (PyVal.str "未知类型")) "Loop" = true →
      pyTruthy (dget (dgetD step "data" (PyVal.dict [])) "startChildStepId") = true →
      (pyRepeat "  " depth ++ "  - 循环体开始: 跳转至步骤 " ++
        Auto.stepNumRender sim (dget (dgetD step "data" (PyVal.dict [])) "startChildStepId"))
        ∈ Auto.parse_step step wtm tm fm om sim si depth) ∧
    (∀ (sim : List (PyVal × Nat)) (k : PyVal) (n : Nat),
      alistLookupP k sim = some n → Auto.stepNumRender sim k = toString n) ∧
    (∀ (sim : List (PyVal × Nat)) (k : PyVal),
      alistLookupP k sim = Option.none → Auto.stepNumRender sim k = "?") := by
  refine ⟨?_, ?_, ?_, ?_, ?_, ?_⟩
  · intro pre x post s hx hs hpost
    unfold Auto.build_step_id_map
    have h := sim_fold_find hs pre x post 0 [] hx hpost
    simpa [List.enum] using h
  · intro step wtm tm fm om sim si depth hty hm
    have hmem : (pyRepeat "  " depth ++ "  - ✅ 满足时: 跳转至步骤 " ++
        Auto.stepNumRender sim (dget (dgetD step "data" (PyVal.dict []))
          "meetConditionStepId")) ∈
        Auto.ifElseSeg (pyRepeat "  " depth) (dgetD step "type" (PyVal.str "未知类型"))
          (dgetD step "data" (PyVal.dict [])) wtm fm om sim := by
      unfold Auto.ifElseSeg
      rw [if_pos hty]
      refine List.mem_append_left _ (List.mem_append_right _ ?_)
      rw [if_pos hm]
      exact List.mem_singleton_self _
    simp only [Auto.parse_step, List.append_eq]
    exact List.mem_cons_of_mem _
      (List.mem_append_left _ (List.mem_append_left _ (List.mem_append_right _ hmem)))
  · intro step wtm tm fm om sim si depth hty hm
    have hmem : (pyRepeat "  " depth ++ "  - ❌ 不满足: 跳转至步骤 " ++
        Auto.stepNumRender sim (dget (dgetD step "data" (PyVal.dict []))
          "notMeetConditionStepId")) ∈
        Auto.ifElseSeg (pyRepeat "  " depth) (dgetD step "type" (PyVal.str "未知类型"))
          (dgetD step "data" (PyVal.dict [])) wtm fm om sim := by
      unfold Auto.ifElseSeg
      rw [if_pos hty]
      refine List.mem_append_right _ ?_
      rw [if_pos hm]
      exact List.mem_singleton_self _
    simp only [Auto.parse_step, List.append_eq]
    exact List.mem_cons_of_mem _
      (List.mem_append_left _ (List.mem_append_left _ (List.mem_append_right _ hmem)))
  · intro step wtm tm fm om sim si depth hty hm
    have hmem : (pyRepeat "  " depth ++ "  - 循环体开始: 跳转至步骤 " ++
        Auto.stepNumRender sim (dget (dgetD step "data" (PyVal.dict []))
          "startChildStepId")) ∈
        Auto.loopSeg (pyRepeat "  " depth) (dgetD step "type" (PyVal.str "未知类型"))
          (dgetD step "data" (PyVal.dict [])) sim := by
      unfold Auto.loopSeg
      rw [if_pos hty]
      refine List.mem_append_right _ ?_
      rw [if_pos hm]
      exact List.mem_singleton_self _
    simp only [Auto.parse_step, List.append_eq]
    exact List.mem_cons_of_mem _
      (List.mem_append_left _ (List.mem_append_left _ (List.mem_append_left _
        (List.mem_append_right _ hmem))))
  · intro sim k n h
    unfold Auto.stepNumRender
    rw [h]
  · intro sim k h
    unfold Auto.stepNumRender
    rw [h]

/-- The `[A, B, C]` example workflow from the specification: B's "not-met"
successor is C and C's loop-body start is B. -/
def C6stepA : PyVal :=
  .dict [("id", .str "A"), ("type", .str "AddRecordTrigger"), ("data", .dict [])]

def C6stepB : PyVal :=
  .dict [("id", .str "B"), ("type", .str "IfElseBranch"),
         ("data", .dict [("notMeetConditionStepId", .str "C")])]

def C6stepC : PyVal :=
  .dict [("id", .str "C"), ("type", .str "Loop"),
         ("data", .dict [("startChildStepId", .str "B")])]

def C6sim : List (PyVal × Nat) := Auto.build_step_id_map [C6stepA, C6stepB, C6stepC]

theorem C6_step_jump_numbering_witness :
    alistLookupP (PyVal.str "C") C6sim = some 3 ∧
    ("  - ❌ 不满足: 跳转至步骤 3" ∈ Auto.parse_step C6stepB [] [] [] [] C6sim 2 0) ∧
    ("  - 循环体开始: 跳转至步骤 2" ∈ Auto.parse_step C6stepC [] [] [] [] C6sim 3 0) ∧
    Auto.stepNumRender C6sim (PyVal.str "D") = "?" := by
  refine ⟨?_, ?_, ?_, ?_⟩
  · exact C6_step_jump_numbering.1 [C6stepA, C6stepB] C6stepC [] "C" rfl
      (by decide) (by simp)
  · have h := C6_step_jump_numbering.2.2.1 C6stepB [] [] [] [] C6sim 2 0
      (by decide) (by decide)
    exact (by decide :
      ("  - ❌ 不满足: 跳转至步骤 3" : String) =
        pyRepeat "  " 0 ++ "  - ❌ 不满足: 跳转至步骤 " ++
          Auto.stepNumRender C6sim (dget (dgetD C6stepB "data" (PyVal.dict []))
            "notMeetConditionStepId")) ▸ h
  · have h := C6_step_jump_numbering.2.2.2.1 C6stepC [] [] [] [] C6sim 3 0
      (by decide) (by decide)
    exact (by decide :
      ("  - 循环体开始: 跳转至步骤 2" : String) =
        pyRepeat "  " 0 ++ "  - 循环体开始: 跳转至步骤 " ++
          Auto.stepNumRender C6sim (dget (dgetD C6stepC "data" (PyVal.dict []))
            "startChildStepId")) ▸ h
  · exact C6_step_jump_numbering.2.2.2.2.2 C6sim (PyVal.str "D") (by decide)

theorem mem_dedupStr {x : String} {l : List String} : x ∈ Auto.dedupStr l ↔ x ∈ l := by
  induction l with
  | nil => simp [Auto.dedupStr]
  | cons k rest ih =>
    by_cases hx : x = k
    · simp [Auto.dedupStr, hx]
    · simp [Auto.dedupStr, hx, List.mem_filter, ih]

theorem emptyLike_str_false {s : String} (hs : s ≠ "") :
    emptyLike (.str s) = false := by
  unfold emptyLike
  split <;> simp_all

theorem pyStartsWith_append (a b : String) : pyStartsWith (a ++ b) a = true := by
  unfold pyStartsWith
  have h : (a ++ b).toList = a.toList ++ b.toList := by
    simp [String.toList, String.data_append]
  rw [h]
  exact List.isPrefixOf_iff_prefix.mpr (List.prefix_append _ _)

theorem fallbackEntry_nonempty {val : PyVal} (indent k : String)
    (wtm : List (String × Auto.WfMapEntry)) (fm : List ((String × String) × String))
    (om : List (String × String)) (h : emptyLike val = false) :
    ∃ t, Auto.fallbackEntry indent k val wtm fm om =
      [indent ++ "    - " ++ k ++ ": " ++ t] := by
  unfold Auto.fallbackEntry
  rw [if_neg (by simp [h])]
  exact ⟨_, rfl⟩

theorem fallbackEntry_str_resolved {s : String} (indent k : String)
    (wtm : List (String × Auto.WfMapEntry)) (fm : List ((String × String) × String))
    (om : List (String × String))
    (hocc : occursIn "fld".toList s.toList = true)
    (hres : Auto.resolve_field_id s wtm fm ≠ s) :
    Auto.fallbackEntry indent k (.str s) wtm fm om =
      [indent ++ "    - " ++ k ++ ": " ++
        Auto.truncAt 300 (Auto.format_value (.str s) om 0 wtm fm ++
          " (解析: " ++ Auto.resolve_field_id s wtm fm ++ ")")] := by
  have hs : s ≠ "" := by
    intro he
    subst he
    simp [occursIn] at hocc
  unfold Auto.fallbackEntry
  rw [if_neg (by simp [emptyLike_str_false hs])]
  simp only []
  rw [if_pos hocc, if_pos hres]
  have hone : pyJoin ", " [Auto.resolve_field_id s wtm fm] =
      Auto.resolve_field_id s wtm fm := rfl
  rw [if_pos (by simp), hone]

theorem mem_fallbackSeg_of {k line : String} {data step_type : PyVal}
    {indent : String} {wtm : List (String × Auto.WfMapEntry)}
    {fm : List ((String × String) × String)} {om : List (String × String)}
    (hk : k ∈ Auto.pyKeys data) (hp : k ∉ Auto.processedKeys step_type data)
    (hline : line ∈ Auto.fallbackEntry indent k (dget data k) wtm fm om) :
    line ∈ Auto.fallbackSeg indent step_type data wtm fm om := by
  unfold Auto.fallbackSeg
  have hkrem : k ∈ sortStrings
      ((Auto.dedupStr (Auto.pyKeys data)).filter
        fun k => ¬ k ∈ Auto.processedKeys step_type data) := by
    rw [mem_sortStrings]
    exact List.mem_filter.mpr ⟨mem_dedupStr.mpr hk, by simpa using hp⟩
  rw [if_pos (List.ne_nil_of_mem hkrem)]
  exact List.mem_cons_of_mem _ (List.mem_flatMap.mpr ⟨k, hkrem, hline⟩)

theorem mem_parse_step_fallback {line : String} {step : PyVal}
    {wtm : List (String × Auto.WfMapEntry)} {tm : List (String × String)}
    {fm : List ((String × String) × String)} {om : List (String × String)}
    {sim : List (PyVal × Nat)} {si depth : Nat}
    (h : line ∈ Auto.fallbackSeg (pyRepeat "  " depth)
      (dgetD step "type" (PyVal.str "未知类型")) (dgetD step "data" (PyVal.dict []))
      wtm fm om) :
    line ∈ Auto.parse_step step wtm tm fm om sim si depth := by
  simp only [Auto.parse_step, List.append_eq]
  exact List.mem_cons_of_mem _ (List.mem_append_right _ h)

/-- C9 counterexample: a step of unhandled type `"Z"` whose payload carries the
unconsumed key `"k"` with value `""` renders only the header and the
`其他配置:` banner — the key `k` is silently dropped by the
`if val in [None, \x7b\x7d, [], ""]: continue` filter, so the fallback does
not render every unconsumed payload key. -/
theorem C9_counterexample :
    Auto.parse_step (.dict [("type", .str "Z"), ("data", .dict [("k", .str "")])])
      [] [] [] [] [] 0 0 = ["- **步骤: Z**", "  - 其他配置:"] := by
  decide

/-- C9 (amended): every unconsumed payload key whose value is NOT one of the
skipped empty values (`None`, `{}`, `[]`, `""`) is rendered by the generic
fallback on a line prefixed `    - <key>: `, and when the value is a string
containing `"fld"` whose best-effort resolution changes it, the rendered line
carries the ` (解析: <name>)` annotation; keys with skipped-empty values are
dropped (see the counterexample). -/
theorem C9_fallback_rendering :
    (∀ (step : PyVal) (wtm : List (String × Auto.WfMapEntry))
        (tm : List (String × String)) (fm : List ((String × String) × String))
        (om : List (String × String)) (sim : List (PyVal × Nat)) (si depth : Nat)
        (k : String),
      k ∈ Auto.pyKeys (dgetD step "data" (PyVal.dict [])) →
      k ∉ Auto.processedKeys (dgetD step "type" (PyVal.str "未知类型"))
        (dgetD step "data" (PyVal.dict [])) →
      emptyLike (dget (dgetD step "data" (PyVal.dict [])) k) = false →
      ∃ line ∈ Auto.parse_step step wtm tm fm om sim si depth,
        pyStartsWith line (pyRepeat "  " depth ++ "    - " ++ k ++ ": ") = true) ∧
    (∀ (step : PyVal) (wtm : List (String × Auto.WfMapEntry))
        (tm : List (String × String)) (fm : List ((String × String) × String))
        (om : List (String × String)) (sim : List (PyVal × Nat)) (si depth : Nat)
        (k s : String),
      k ∈ Auto.pyKeys (dgetD step "data" (PyVal.dict [])) →
      k ∉ Auto.processedKeys (dgetD step "type" (PyVal.str "未知类型"))
        (dgetD step "data" (PyVal.dict [])) →
      dget (dgetD step "data" (PyVal.dict [])) k = .str s →
      occursIn "fld".toList s.toList = true →
      Auto.resolve_field_id s wtm fm ≠ s →
      (pyRepeat "  " depth ++ "    - " ++ k ++ ": " ++
        Auto.truncAt 300 (Auto.format_value (.str s) om 0 wtm fm ++
          " (解析: " ++ Auto.resolve_field_id s wtm fm ++ ")"))
        ∈ Auto.parse_step step wtm tm fm om sim si depth) := by
  constructor
  · intro step wtm tm fm om sim si depth k hk hp hem
    obtain ⟨t, ht⟩ := fallbackEntry_nonempty (pyRepeat "  " depth) k wtm fm om hem
    refine ⟨pyRepeat "  " depth ++ "    - " ++ k ++ ": " ++ t, ?_, ?_⟩
    · exact mem_parse_step_fallback (mem_fallbackSeg_of hk hp
        (by rw [ht]; exact List.mem_singleton_self _))
    · exact pyStartsWith_append (pyRepeat "  " depth ++ "    - " ++ k ++ ": ") t
  · intro step wtm tm fm om sim si depth k s hk hp hstr hocc hres
    have hline := fallbackEntry_str_resolved (pyRepeat "  " depth) k wtm fm om hocc hres
    exact mem_parse_step_fallback (mem_fallbackSeg_of hk hp
      (by rw [hstr, hline]; exact List.mem_singleton_self _))

theorem C9_fallback_rendering_witness :
    "    - myKey: fldW (解析: 监听列)" ∈
      Auto.parse_step
        (.dict [("type", .str "Z"), ("data", .dict [("myKey", .str "fldW")])])
        [] [] [(("t1", "fldW"), "监听列")] [] [] 0 0 := by
  have hfv : Auto.format_value (.str "fldW") [] 0 [] [(("t1", "fldW"), "监听列")]
      = "fldW" := by
    simp [Auto.format_value, pyStartsWith, List.isPrefixOf]
  have h := C9_fallback_rendering.2
    (.dict [("type", .str "Z"), ("data", .dict [("myKey", .str "fldW")])])
    [] [] [(("t1", "fldW"), "监听列")] [] [] 0 0 "myKey" "fldW"
    (by decide) (by decide) rfl (by decide) (by decide)
  have heq : (pyRepeat "  " 0 ++ "    - " ++ "myKey" ++ ": " ++
      Auto.truncAt 300 (Auto.format_value (.str "fldW") [] 0 []
        [(("t1", "fldW"), "监听列")] ++
        " (解析: " ++ Auto.resolve_field_id "fldW" [] [(("t1", "fldW"), "监听列")] ++ ")"))
      = "    - myKey: fldW (解析: 监听列)" := by
    rw [hfv]
    decide
  exact heq ▸ h
